import Mathlib

/-!
TTLKnight: the bit-banged MicroWire EEPROM driver (`PIC_FW/eeprom93c46.c`).

A shallow embedding of the driver.  The four GPIO lines and the registers the
driver writes are a record `Pins`; the EEPROM on the other side of the lines
is a `Device`, a reactive object that sees every write to an output line and
answers every read of data-out.  Every access to a line is appended to a
chronological trace, so that frame shapes and call orders can be stated as
equalities between lists of events.

Conventions.

* `unsigned char` and `unsigned int` values are natural numbers; the target is
  a PIC16 (`<pic.h>`, `ADCON1`, `TRISA`), whose `int` is 16 bits wide, so the
  mask `1 << count` is taken modulo `2 ^ 16`.
  A shift by 16 or more, which no call of the driver makes, is taken to give 0.
* A write to an output latch is passed to the device whatever the direction
  bits say; the driver sets the directions in `ee_init`, before any transfer.
* `__delay_us` only lets real time pass and is not represented.
* The unbounded loop `while (!EE_DO) ;` takes a fuel argument bounding the
  number of samples; running out of fuel is `none`.

The console firmware (`PIC_FW/saved/newmain.c`) is embedded after the driver,
as functions on a record of its globals; its conventions are stated there.
-/

namespace TTLKnight

/-! ## Data model -/

/-- One access to a line: a write of data-in, clock or chip-select with the
level written, or a read of data-out with the level seen. -/
inductive Ev where
  | DI (b : Bool)
  | SK (b : Bool)
  | CS (b : Bool)
  | DO (b : Bool)
  deriving DecidableEq

/-- The registers written by the driver: `ADCON1`, the four direction bits of
`TRISA`, and the three output latches `RA0` (DI), `RA2` (SK), `RA3` (CS). -/
structure Pins where
  adcon1 : Nat
  trisDI : Bool
  trisDO : Bool
  trisSK : Bool
  trisCS : Bool
  di : Bool
  sk : Bool
  cs : Bool
  deriving DecidableEq

/-- The far end of the lines.  `drive` is the reaction to a write of an output
line, `sample` gives the level of data-out read at `RA1` together with the
state of the device after the read. -/
structure Device (δ : Type) where
  drive : Ev → δ → δ
  sample : δ → Bool × δ

/-- Registers, device state and the chronological trace of line accesses. -/
structure World (δ : Type) where
  pins : Pins
  dev : δ
  trace : List Ev

variable {δ : Type}

/-- The assignment `EE_DI = b`. -/
def setDI (D : Device δ) (b : Bool) (w : World δ) : World δ :=
  { pins := { w.pins with di := b }, dev := D.drive (Ev.DI b) w.dev,
    trace := w.trace ++ [Ev.DI b] }

/-- The assignment `EE_SK = b`. -/
def setSK (D : Device δ) (b : Bool) (w : World δ) : World δ :=
  { pins := { w.pins with sk := b }, dev := D.drive (Ev.SK b) w.dev,
    trace := w.trace ++ [Ev.SK b] }

/-- The assignment `EE_CS = b`. -/
def setCS (D : Device δ) (b : Bool) (w : World δ) : World δ :=
  { pins := { w.pins with cs := b }, dev := D.drive (Ev.CS b) w.dev,
    trace := w.trace ++ [Ev.CS b] }

/-- A read of `EE_DO`. -/
def readDO (D : Device δ) (w : World δ) : Bool × World δ :=
  ((D.sample w.dev).1,
   { pins := w.pins, dev := (D.sample w.dev).2,
     trace := w.trace ++ [Ev.DO (D.sample w.dev).1] })

/-! ## The driver -/

/-- The function `ee_clock`: `EE_SK = 1; EE_SK = 0;` (the delays are not represented). -/
def ee_clock (D : Device δ) (w : World δ) : World δ :=
  setSK D false (setSK D true w)

/-- The function `ee_init`: `ADCON1 = 0x06`, the four direction bits, then
`EE_DI = 0; EE_SK = 0; EE_CS = 1;`. -/
def ee_init (D : Device δ) (w : World δ) : World δ :=
  let w1 : World δ :=
    { w with pins := { w.pins with adcon1 := 0x06, trisDI := false, trisDO := true,
                                   trisSK := false, trisCS := false } }
  setCS D true (setSK D false (setDI D false w1))

/-- The function `ee_send_bits(data, count)`: `while (count--) { EE_DI = (data & (1 << count)) ? 1 : 0;
ee_clock(); }`.  The test `count--` is on the value before the decrement and
the body sees the value after it; `1 << count` is a 16-bit `int`. -/
def ee_send_bits (D : Device δ) (data : Nat) : Nat → World δ → World δ
  | 0, w => w
  | count + 1, w =>
    ee_send_bits D data count
      (ee_clock D (setDI D (decide (data &&& ((1 <<< count) % 65536) ≠ 0)) w))

/-- The loop of `ee_read_byte`: `ee_clock(); result <<= 1; if (EE_DO) result |= 1;`
repeated `n` times, `result` being an `unsigned char`. -/
def ee_read_byte_loop (D : Device δ) : Nat → Nat → World δ → Nat × World δ
  | 0, result, w => (result, w)
  | n + 1, result, w =>
    let w1 := ee_clock D w
    let r1 := (result <<< 1) % 256
    let s := readDO D w1
    ee_read_byte_loop D n (if s.1 then r1 ||| 1 else r1) s.2

/-- The function `ee_read_byte(address)`: `EE_CS = 1`, the 9-bit frame of
`0x600 | address`, the loop of eight samples, `EE_CS = 0`, and the byte assembled. -/
def ee_read_byte (D : Device δ) (address : Nat) (w : World δ) : Nat × World δ :=
  let w1 := setCS D true w
  let w2 := ee_send_bits D (0x600 ||| address) 9 w1
  let r := ee_read_byte_loop D 8 0 w2
  (r.1, setCS D false r.2)

/-- The function `ee_write_start`, static and called by nothing. -/
def ee_write_start (D : Device δ) (w : World δ) : World δ :=
  setCS D false (ee_send_bits D 0x300 3 (setCS D true w))

/-- The function `ee_write_enable`: `EE_CS = 1; ee_send_bits(0x980, 9); EE_CS = 0;`. -/
def ee_write_enable (D : Device δ) (w : World δ) : World δ :=
  setCS D false (ee_send_bits D 0x980 9 (setCS D true w))

/-- The function `ee_write_disable`: `EE_CS = 1; ee_send_bits(0x000, 9); EE_CS = 0;`. -/
def ee_write_disable (D : Device δ) (w : World δ) : World δ :=
  setCS D false (ee_send_bits D 0x000 9 (setCS D true w))

/-- The loop `while (!EE_DO) ;` with at most `fuel` samples of data-out. -/
def ee_poll (D : Device δ) : Nat → World δ → Option (World δ)
  | 0, _ => none
  | fuel + 1, w =>
    let s := readDO D w
    if s.1 then some s.2 else ee_poll D fuel s.2

/-- The statements of `ee_write_byte` before its busy-poll: `ee_write_enable();`
then `EE_CS = 1; ee_send_bits(0x500 | address, 9); ee_send_bits(data, 8); EE_CS = 0;`
and the `EE_CS = 1;` that opens the poll. -/
def prePoll (D : Device δ) (address data : Nat) (w : World δ) : World δ :=
  let w1 := ee_write_enable D w
  let w2 := setCS D true w1
  let w3 := ee_send_bits D (0x500 ||| address) 9 w2
  let w4 := ee_send_bits D data 8 w3
  let w5 := setCS D false w4
  setCS D true w5

/-- The function `ee_write_byte(address, data)`: the statements before the poll, the poll
`while (!EE_DO) ;` with at most `fuel` samples, then `EE_CS = 0; ee_write_disable();`. -/
def ee_write_byte (D : Device δ) (fuel : Nat) (address data : Nat) (w : World δ) :
    Option (World δ) :=
  match ee_poll D fuel (prePoll D address data w) with
  | none => none
  | some w7 => some (ee_write_disable D (setCS D false w7))

/-! ## Observations on traces -/

/-- The levels written to data-in, in order. -/
def diWrites : List Ev → List Bool
  | [] => []
  | Ev.DI b :: t => b :: diWrites t
  | _ :: t => diWrites t

/-- The levels read from data-out, in order. -/
def doReads : List Ev → List Bool
  | [] => []
  | Ev.DO b :: t => b :: doReads t
  | _ :: t => doReads t

/-- The number of rising edges written to the clock line. -/
def clockPulses (t : List Ev) : Nat := t.count (Ev.SK true)

/-- The value of a bit sequence read most-significant bit first. -/
def bitsValue (bs : List Bool) : Nat :=
  bs.foldl (fun acc b => 2 * acc + (if b then 1 else 0)) 0

/-- The events of one bit of a frame: the level on data-in, then one clock pulse. -/
def bitEvents (b : Bool) : List Ev := [Ev.DI b, Ev.SK true, Ev.SK false]

/-- The events of a frame of `width` bits of `value`, most-significant first. -/
def frameEvents (value width : Nat) : List Ev :=
  (List.range width).flatMap (fun i => bitEvents (value.testBit (width - 1 - i)))

/-- The line activity of `ee_write_enable`. -/
def ewenEvents : List Ev := Ev.CS true :: frameEvents 0x980 9 ++ [Ev.CS false]

/-- The line activity of `ee_write_disable`. -/
def ewdsEvents : List Ev := Ev.CS true :: frameEvents 0x000 9 ++ [Ev.CS false]

/-- The line activity of the write transaction of `ee_write_byte`. -/
def writeEvents (address data : Nat) : List Ev :=
  Ev.CS true :: frameEvents (0x500 ||| address) 9 ++ frameEvents data 8 ++ [Ev.CS false]

/-- The line activity of a busy-poll that saw `k` low samples before the high one. -/
def pollEvents (k : Nat) : List Ev :=
  Ev.CS true :: List.replicate k (Ev.DO false) ++ [Ev.DO true, Ev.CS false]

/-- The value of the nine bits `ee_read_byte` puts on data-in. -/
def readCommand (D : Device δ) (address : Nat) (w : World δ) : Nat :=
  bitsValue (diWrites (ee_read_byte D address { w with trace := [] }).2.trace)

/-- The value of the nine bits that open the write transaction of
`ee_write_byte`: the data-in writes 9 to 17 of the call, the first nine being
those of `ee_write_enable`. -/
def writeCommand (D : Device δ) (address data : Nat) (w : World δ) : Nat :=
  bitsValue (((diWrites (prePoll D address data { w with trace := [] }).trace).drop 9).take 9)

/-- A device that ignores the lines and whose data-out reads `level k` at the
`k`-th sample (counted from 0). -/
def oracle (level : Nat → Bool) : Device Nat :=
  { drive := fun _ k => k, sample := fun k => (level k, k + 1) }

/-- A device whose data-out always reads high. -/
def alwaysReady : Device Nat := oracle (fun _ => true)

/-- The mock of the busy-poll property: data-out reads low for the first `N`
samples and high from then on. -/
def lowFor (N : Nat) : Device Nat := oracle (fun k => decide (N ≤ k))

/-- A call of one of the four public operations. -/
inductive Op where
  | read (address : Nat)
  | enable
  | disable
  | write (address data : Nat)

/-- One call; `fuel` bounds the busy-poll of a write. -/
def runOp (D : Device δ) (fuel : Nat) : Op → World δ → Option (World δ)
  | Op.read a, w => some (ee_read_byte D a w).2
  | Op.enable, w => some (ee_write_enable D w)
  | Op.disable, w => some (ee_write_disable D w)
  | Op.write a d, w => ee_write_byte D fuel a d w

/-- A sequence of calls, each started where the previous one returned. -/
def runOps (D : Device δ) (fuel : Nat) : List Op → World δ → Option (World δ)
  | [], w => some w
  | op :: ops, w => (runOp D fuel op w).bind (runOps D fuel ops)

/-- Power-on registers: all `TRISA` bits set (inputs), latches low. -/
def powerOn : Pins :=
  { adcon1 := 0, trisDI := true, trisDO := true, trisSK := true, trisCS := true,
    di := false, sk := false, cs := false }

/-! ## A simulated MicroWire EEPROM -/

/-- Modelled from the spec: where the simulated device of the round-trip
property stands in its frame state machine.  `idle`: select deasserted;
`command`: collecting the nine bits of a command frame; `dataIn a`: a WRITE to
address `a` was decoded and the eight data bits are being collected;
`dataOut bs`: a READ was decoded and the bits `bs` are still to be presented on
data-out; `status`: select was re-asserted after a write and data-out shows
busy (low) or ready (high); `done`: the frame is over or was not recognised,
clock pulses are ignored until select is released. -/
inductive Phase where
  | idle
  | command
  | dataIn (a : Nat)
  | dataOut (bs : List Bool)
  | status
  | done

/-- Modelled from the spec: what the spec leaves open about the simulated
device.  `floatHigh` is the level read on data-out while the device does not
drive it; `skipZeros` says whether zeros clocked in before the start bit are
skipped (as the real part does) or make the device ignore the frame; `tw` is
the number of poll samples that read busy after a write. -/
structure DevCfg where
  floatHigh : Bool
  skipZeros : Bool
  tw : Nat

/-- Modelled from the spec: the state of the simulated device: the 64 cells,
the write-enable latch, the levels it last saw on chip-select, clock and
data-in, the phase, the bits shifted in so far (oldest first), the level it
drives on data-out, whether a write cycle was started by the last frame, and
the number of busy samples left. -/
structure Eeprom where
  mem : Nat → Nat
  wen : Bool
  cs : Bool
  sk : Bool
  di : Bool
  phase : Phase
  sr : List Bool
  dout : Bool
  pending : Bool
  busy : Nat

/-- Modelled from the spec: the eight bits of a byte, most-significant first. -/
def byteBits (v : Nat) : List Bool :=
  (List.range 8).map (fun i => v.testBit (7 - i))

/-- Modelled from the spec: a complete 9-bit command frame is decoded: start
bit 1, then opcode 10 = READ, 01 = WRITE, 00 followed by 11 = EWEN, 00 followed
by 00 = EWDS; the six bits after the opcode are the address.  Anything else is
ignored. -/
def Eeprom.decode (cfg : DevCfg) (e : Eeprom) : List Bool → Eeprom
  | true :: true :: false :: addr =>
    { e with phase := Phase.dataOut (byteBits (e.mem (bitsValue addr))), dout := false, sr := [] }
  | true :: false :: true :: addr =>
    { e with phase := Phase.dataIn (bitsValue addr), sr := [] }
  | true :: false :: false :: true :: true :: _ =>
    { e with wen := true, phase := Phase.done, sr := [] }
  | true :: false :: false :: false :: false :: _ =>
    { e with wen := false, phase := Phase.done, sr := [] }
  | _ => { e with phase := Phase.done, sr := [], dout := cfg.floatHigh }

/-- Modelled from the spec: the reaction of the simulated device to a rising
clock edge while it is selected. -/
def Eeprom.clockIn (cfg : DevCfg) (e : Eeprom) : Eeprom :=
  match e.phase with
  | Phase.command =>
    if e.sr = [] ∧ e.di = false then
      (if cfg.skipZeros then e else { e with phase := Phase.done })
    else
      let sr := e.sr ++ [e.di]
      if sr.length = 9 then Eeprom.decode cfg e sr else { e with sr := sr }
  | Phase.dataIn a =>
    let sr := e.sr ++ [e.di]
    if sr.length = 8 then
      (if e.wen then
        { e with mem := fun i => if i = a then bitsValue sr else e.mem i,
                 phase := Phase.done, sr := [], pending := true, busy := cfg.tw }
       else { e with phase := Phase.done, sr := [] })
    else { e with sr := sr }
  | Phase.dataOut (b :: bs) => { e with dout := b, phase := Phase.dataOut bs }
  | Phase.dataOut [] => { e with dout := cfg.floatHigh, phase := Phase.done }
  | _ => e

/-- Modelled from the spec: the reaction of the simulated device to a write of
one of its input lines.  A frame starts at the rising edge of chip-select and
ends at its falling edge; data-in is taken at the rising edge of the clock. -/
def Eeprom.drive (cfg : DevCfg) : Ev → Eeprom → Eeprom
  | Ev.DI b, e => { e with di := b }
  | Ev.SK true, e =>
    if e.cs ∧ e.sk = false then { Eeprom.clockIn cfg e with sk := true } else { e with sk := true }
  | Ev.SK false, e => { e with sk := false }
  | Ev.CS true, e =>
    if e.cs then e
    else if e.pending then
      { e with cs := true, phase := Phase.status, sr := [], pending := false }
    else { e with cs := true, phase := Phase.command, sr := [], dout := cfg.floatHigh }
  | Ev.CS false, e =>
    { e with cs := false, phase := Phase.idle, sr := [], dout := cfg.floatHigh }
  | Ev.DO _, e => e

/-- Modelled from the spec: the level of data-out seen by a read.  In the
status phase it is low for the `busy` samples left and high afterwards;
otherwise it is the level the device drives or the floating level. -/
def Eeprom.sample (e : Eeprom) : Bool × Eeprom :=
  match e.phase with
  | Phase.status => if e.busy = 0 then (true, e) else (false, { e with busy := e.busy - 1 })
  | _ => (e.dout, e)

/-- Modelled from the spec: the simulated MicroWire device of the round-trip
property. -/
def eeprom (cfg : DevCfg) : Device Eeprom :=
  { drive := Eeprom.drive cfg, sample := Eeprom.sample }

/-- Modelled from the spec: the simulated device at power-up, with the given
cell contents, deselected and write-disabled. -/
def Eeprom.powerUp (cfg : DevCfg) (mem : Nat → Nat) : Eeprom :=
  { mem := mem, wen := false, cs := false, sk := false, di := false,
    phase := Phase.idle, sr := [], dout := cfg.floatHigh, pending := false, busy := 0 }

/-- The two driver calls of `eeprom_self_test`: `ee_write_byte(addr, value)`
then `ee_read_byte(addr)`; the result is the byte read, or `none` if the
busy-poll runs out of fuel. -/
def roundTrip (D : Device δ) (fuel addr value : Nat) (w : World δ) : Option Nat :=
  match ee_write_byte D fuel addr value w with
  | none => none
  | some w1 => some (ee_read_byte D addr w1).1

/-- Modelled from the spec: running a device without the driver: the line writes of a list of events
are applied to it and every `DO` event samples data-out; the result is the
list of levels sampled and the final state. -/
def feed (D : Device δ) : List Ev → δ → List Bool × δ
  | [], s => ([], s)
  | Ev.DO _ :: t, s =>
    let r := feed D t (D.sample s).2
    ((D.sample s).1 :: r.1, r.2)
  | e :: t, s => feed D t (D.drive e s)

/-- Modelled from the spec: the line activity of a driver that sends the
frames the round-trip property names:
EWEN `1 00 11xxxx`, WRITE `1 01 a d` with `k` poll samples, EWDS `1 00 00xxxx`,
then READ `1 10 a` with eight clocked samples. -/
def datasheetSession (a d k : Nat) : List Ev :=
  (Ev.CS true :: frameEvents 0x130 9 ++ [Ev.CS false])
  ++ (Ev.CS true :: frameEvents (0x140 ||| a) 9 ++ frameEvents d 8 ++ [Ev.CS false])
  ++ (Ev.CS true :: List.replicate k (Ev.DO false) ++ [Ev.CS false])
  ++ (Ev.CS true :: frameEvents 0x100 9 ++ [Ev.CS false])
  ++ (Ev.CS true :: frameEvents (0x180 ||| a) 9
        ++ (List.replicate 8 [Ev.SK true, Ev.SK false, Ev.DO false]).flatten ++ [Ev.CS false])

/-- Modelled from the spec: a state of the simulated device in which data-out
reads low and a read leaves the state as it is. -/
def Eeprom.quietLow (e : Eeprom) : Bool :=
  match e.phase with
  | Phase.status => false
  | _ => !e.dout

/-- The bench of the self-test: registers at power-on, an erased simulated
device (every cell `0xFF`) at power-up, then `ee_init`. -/
def bench (cfg : DevCfg) : World Eeprom :=
  ee_init (eeprom cfg) ⟨powerOn, Eeprom.powerUp cfg (fun _ => 0xFF), []⟩

/-! ## Further observations on traces -/

/-- The events of the data phase of `ee_read_byte` in which data-out showed the
levels `bs`: for each level one clock pulse and then the read of data-out. -/
def sampleEvents (bs : List Bool) : List Ev :=
  bs.flatMap (fun b => [Ev.SK true, Ev.SK false, Ev.DO b])

/-- The line activity of `ee_read_byte` when data-out showed the levels `bs`. -/
def readEvents (address : Nat) (bs : List Bool) : List Ev :=
  Ev.CS true :: frameEvents (0x600 ||| address) 9 ++ sampleEvents bs ++ [Ev.CS false]

/-- A scan of a trace for the discipline of data-in against the clock.  The
state is the level of the clock and whether a bit written to data-in still
waits for its rising edge.  A write of data-in while the clock is high, or
while the previous bit still waits, is a violation (`none`). -/
def edgeScan : Bool → Bool → List Ev → Option (Bool × Bool)
  | sk, pend, [] => some (sk, pend)
  | sk, pend, Ev.DI _ :: t => if sk || pend then none else edgeScan sk true t
  | _, _, Ev.SK true :: t => edgeScan true false t
  | _, pend, Ev.SK false :: t => edgeScan false pend t
  | sk, pend, Ev.CS _ :: t => edgeScan sk pend t
  | sk, pend, Ev.DO _ :: t => edgeScan sk pend t

/-- The events an operation appended to the trace of the world it started in. -/
def added (w w' : World δ) : List Ev := w'.trace.drop w.trace.length

/-- The value of the nine bits `ee_write_enable` puts on data-in. -/
def enableCommand (D : Device δ) (w : World δ) : Nat :=
  bitsValue (diWrites (ee_write_enable D { w with trace := [] }).trace)

/-- The value of the nine bits `ee_write_disable` puts on data-in. -/
def disableCommand (D : Device δ) (w : World δ) : Nat :=
  bitsValue (diWrites (ee_write_disable D { w with trace := [] }).trace)

/-- The value of the three bits `ee_write_start` puts on data-in. -/
def startCommand (D : Device δ) (w : World δ) : Nat :=
  bitsValue (diWrites (ee_write_start D { w with trace := [] }).trace)

/-! ## The console firmware (`PIC_FW/saved/newmain.c`)

Characters are their codes, C strings are lists of codes read up to the first
NUL, and a pointer into `rx_buf` is the list of the cells from that position
on.  `int` is 16 bits and `long` 32 bits wide; a signed overflow wraps around.
The wait for the transmitter in `uart_putc` is not represented: the bytes
written to `TXREG` are appended to `tx`. -/

/-- The character codes of a string literal. -/
def bytes (s : String) : List Nat := s.toList.map Char.toNat

/-- The size `RX_BUF_SIZE` of `rx_buf`. -/
def RX_BUF_SIZE : Nat := 32

/-- The globals of `newmain.c`, the latch of `PORTD`, the bytes written to
`TXREG` in order, and two records kept for the statements about the receive
buffer: the indices of the stores into `rx_buf`, and the contents of `rx_buf`
at each call of `process_message`. -/
structure Firmware where
  greeted : Nat
  last_rx_time : Nat
  rx_buf : List Nat
  rx_pos : Nat
  pattern : Nat
  direction : Nat
  run_chaser : Nat
  next_update : Nat
  interval : Nat
  portd : Nat
  tx : List Nat
  stores : List Nat
  handed : List (List Nat)

/-- The initial values of the globals, with `PORTD` cleared as `main` does. -/
def boot : Firmware :=
  { greeted := 0, last_rx_time := 0, rx_buf := List.replicate 32 0, rx_pos := 0,
    pattern := 0x01, direction := 0, run_chaser := 1, next_update := 0, interval := 120,
    portd := 0x00, tx := [], stores := [], handed := [] }

/-- The function `hex_digit`: the value of a hex digit, or -1. -/
def hex_digit (c : Nat) : Int :=
  if '0'.toNat ≤ c ∧ c ≤ '9'.toNat then (c : Int) - '0'.toNat
  else if 'A'.toNat ≤ c ∧ c ≤ 'F'.toNat then (c : Int) - 'A'.toNat + 10
  else if 'a'.toNat ≤ c ∧ c ≤ 'f'.toNat then (c : Int) - 'a'.toNat + 10
  else -1

/-- The loop of `parse_binary`: `while (*s == '0' || *s == '1') { v = (v << 1) | (*s - '0'); s++; }`
with `v` the bit pattern of a 16-bit `int`. -/
def parse_binary_loop : List Nat → Nat → Nat
  | [], v => v
  | c :: s, v =>
    if c = '0'.toNat ∨ c = '1'.toNat then
      parse_binary_loop s (((v <<< 1) % 65536) ||| (c - '0'.toNat))
    else v

/-- The function `parse_binary`; the result is the bit pattern of the `int`. -/
def parse_binary (s : List Nat) : Nat := parse_binary_loop s 0

/-- The loop of `parse_hex`: `while ((d = hex_digit(*s)) >= 0) { v = (v << 4) | d; s++; }`
with `v` the bit pattern of a 16-bit `int`. -/
def parse_hex_loop : List Nat → Nat → Nat
  | [], v => v
  | c :: s, v =>
    if 0 ≤ hex_digit c then parse_hex_loop s (((v <<< 4) % 65536) ||| (hex_digit c).toNat)
    else v

/-- The function `parse_hex`: an optional `0x` or `0X` is skipped; the result
is the bit pattern of the `int`. -/
def parse_hex (s : List Nat) : Nat :=
  if s.headD 0 = '0'.toNat ∧ (s.getD 1 0 = 'x'.toNat ∨ s.getD 1 0 = 'X'.toNat) then
    parse_hex_loop (s.drop 2) 0
  else parse_hex_loop s 0

/-- A value reduced to a 32-bit signed `long`. -/
def wrap32 (x : Int) : Int := (x + 2147483648) % 4294967296 - 2147483648

/-- The loop of `parse_number`: `while (*s >= '0' && *s <= '9') { v = v * 10 + (*s - '0'); s++; }`
with `v` a 32-bit `long`. -/
def parse_number_loop : List Nat → Int → Int
  | [], v => v
  | c :: s, v =>
    if '0'.toNat ≤ c ∧ c ≤ '9'.toNat then
      parse_number_loop s (wrap32 (v * 10 + ((c : Int) - '0'.toNat)))
    else v

/-- The function `parse_number`. -/
def parse_number (s : List Nat) : Int := parse_number_loop s 0

/-- The test `strcmp(s, lit) == 0` for a literal `lit` without NUL. -/
def strcmp_is0 : List Nat → List Nat → Bool
  | s, [] => s.headD 0 == 0
  | [], _ :: _ => false
  | c :: s, l :: lit => c == l && strcmp_is0 s lit

/-- The test `strncmp(s, lit, n) == 0` for a literal `lit` of `n` characters
without NUL. -/
def strncmp_is0 : List Nat → List Nat → Bool
  | _, [] => true
  | [], _ :: _ => false
  | c :: s, l :: lit => c == l && strncmp_is0 s lit

/-- The function `uart_putc`: the byte goes to `TXREG`. -/
def uart_putc (c : Nat) (s : Firmware) : Firmware := { s with tx := s.tx ++ [c] }

/-- The function `uart_puts`: the characters up to the first NUL go to `TXREG`. -/
def uart_puts (str : List Nat) (s : Firmware) : Firmware :=
  { s with tx := s.tx ++ str.takeWhile (fun c => c != 0) }

/-- The assignment `rx_buf[i] = c`; the index is recorded. -/
def store (i c : Nat) (s : Firmware) : Firmware :=
  { s with rx_buf := s.rx_buf.set i c, stores := s.stores ++ [i] }

/-- The function `do_help`. -/
def do_help (s : Firmware) : Firmware :=
  uart_puts (bytes "  help        - show this help\r\n")
    (uart_puts (bytes "  right       - force right direction\r\n")
      (uart_puts (bytes "  left        - force left direction\r\n")
        (uart_puts (bytes "  speed <ms>  - set speed in ms\r\n")
          (uart_puts (bytes "  start       - resume chaser\r\n")
            (uart_puts (bytes "  stop        - freeze chaser\r\n")
              (uart_puts (bytes "Commands:\r\n") s))))))

/-- The end of the `set` branch of `process_message`: `PORTD = value;` and the
report of the value as two hex digits. -/
def apply_set (value : Nat) (s : Firmware) : Firmware :=
  uart_puts (bytes "\r\n")
    (uart_putc ((bytes "0123456789ABCDEF").getD (value &&& 0x0F) 0)
      (uart_putc ((bytes "0123456789ABCDEF").getD ((value >>> 4) &&& 0x0F) 0)
        (uart_puts (bytes "PORTD set to 0x") { s with portd := value })))

/-- The `set` branch of `process_message`, `arg` being `rx_buf + 4`: binary
after `b` or `B`, else hex when the argument starts with `0x`, `0X` or a hex
digit, else decimal when it starts with a decimal digit, else a complaint.
The value is converted to `unsigned char`. -/
def process_set (s : Firmware) : Firmware :=
  let arg := s.rx_buf.drop 4
  if arg.headD 0 = 'b'.toNat ∨ arg.headD 0 = 'B'.toNat then
    apply_set (parse_binary (arg.drop 1) % 256) s
  else if (arg.headD 0 = '0'.toNat ∧ (arg.getD 1 0 = 'x'.toNat ∨ arg.getD 1 0 = 'X'.toNat))
      ∨ 0 ≤ hex_digit (arg.headD 0) then
    apply_set (parse_hex arg % 256) s
  else if '0'.toNat ≤ arg.headD 0 ∧ arg.headD 0 ≤ '9'.toNat then
    apply_set ((parse_number arg % 256).toNat) s
  else uart_puts (bytes "invalid set value\r\n") s

/-- The `speed` branch of `process_message`. -/
def process_speed (s : Firmware) : Firmware :=
  let v := parse_number (s.rx_buf.drop 6)
  if 10 < v ∧ v < 2000 then
    uart_puts (bytes " ms\r\n")
      (uart_puts (s.rx_buf.drop 6)
        (uart_puts (bytes "speed set to ") { s with interval := v.toNat }))
  else uart_puts (bytes "invalid speed\r\n") s

/-- The chain of comparisons of `process_message`, before the reset of the
buffer. -/
def dispatch (s : Firmware) : Firmware :=
  if strcmp_is0 s.rx_buf (bytes "stop") then
    uart_puts (bytes "chaser stopped\r\n") { s with run_chaser := 0 }
  else if strcmp_is0 s.rx_buf (bytes "start") then
    uart_puts (bytes "chaser resumed\r\n") { s with run_chaser := 1 }
  else if strcmp_is0 s.rx_buf (bytes "left") then
    uart_puts (bytes "direction = left\r\n") { s with direction := 0 }
  else if strcmp_is0 s.rx_buf (bytes "right") then
    uart_puts (bytes "direction = right\r\n") { s with direction := 1 }
  else if strcmp_is0 s.rx_buf (bytes "help") then do_help s
  else if strncmp_is0 s.rx_buf (bytes "speed ") then process_speed s
  else if strncmp_is0 s.rx_buf (bytes "set ") then process_set s
  else uart_puts (bytes "\r\n") (uart_puts s.rx_buf (uart_puts (bytes "message was: ") s))

/-- The function `process_message`: the comparisons, then `rx_pos = 0; rx_buf[0] = '\0';`.
The buffer it is called with is recorded. -/
def process_message (s : Firmware) : Firmware :=
  store 0 0 { dispatch { s with handed := s.handed ++ [s.rx_buf] } with rx_pos := 0 }

/-- The function `uart_task`, called when the tick count is `ms`; `rx` is the
character in `RCREG` when `uart_rx_ready()`, and `none` otherwise. -/
def uart_task (ms : Nat) (rx : Option Nat) (s : Firmware) : Firmware :=
  match rx with
  | some c =>
    let s1 := { s with last_rx_time := ms }
    let s2 := if s1.greeted = 0 then
        { uart_puts (bytes "\r\nConnection detected.\r\n") s1 with greeted := 1 }
      else s1
    if c = 13 ∨ c = 10 then
      let s3 := uart_puts (bytes "\r\n") s2
      let s4 := if 0 < s3.rx_pos then process_message (store s3.rx_pos 0 s3) else s3
      { s4 with rx_pos := 0 }
    else if c = 8 then
      if 0 < s2.rx_pos then
        uart_putc 8 (uart_putc ' '.toNat (uart_putc 8 { s2 with rx_pos := s2.rx_pos - 1 }))
      else s2
    else if s2.rx_pos < RX_BUF_SIZE - 1 then
      uart_putc c { store s2.rx_pos c s2 with rx_pos := s2.rx_pos + 1 }
    else s2
  | none =>
    if s.greeted ≠ 0 ∧ 5000 < (ms + 4294967296 - s.last_rx_time) % 4294967296 then
      { s with greeted := 0 }
    else s

/-- The chaser block of the loop of `main`, when the tick count is `ms`. -/
def chaser_update (ms : Nat) (s : Firmware) : Firmware :=
  if s.run_chaser ≠ 0 ∧ s.next_update ≤ ms then
    let s1 := { s with next_update := (ms + s.interval) % 4294967296, portd := s.pattern }
    if s1.direction = 0 then
      let p := (s1.pattern <<< 1) % 256
      { s1 with pattern := p, direction := if p = 0x80 then 1 else s1.direction }
    else
      let p := s1.pattern >>> 1
      { s1 with pattern := p, direction := if p = 0x01 then 0 else s1.direction }
  else s

/-- One turn of the loop of `main`: the chaser block, then `uart_task()`. -/
def main_iter (ms : Nat) (rx : Option Nat) (s : Firmware) : Firmware :=
  uart_task ms rx (chaser_update ms s)

/-- The statements of `main` before its loop that touch the state kept here:
`PORTD = 0x00` and the banner. -/
def main_prelude (s : Firmware) : Firmware :=
  uart_puts
    (bytes "\r\nPIC16F877 Ready.\r\nKnight Rider Command Mode.\r\nType 'help' for commands.\r\n")
    { s with portd := 0x00 }

/-- Successive turns of the loop of `main`, one for each pair of a tick count
and the character received, if any. -/
def run_main : List (Nat × Option Nat) → Firmware → Firmware
  | [], s => s
  | (ms, rx) :: t, s => run_main t (main_iter ms rx s)

/-- Successive calls of `uart_task`, one for each pair of a tick count and the
character received, if any. -/
def run_uart : List (Nat × Option Nat) → Firmware → Firmware
  | [], s => s
  | (ms, rx) :: t, s => run_uart t (uart_task ms rx s)

/-- The turns of the loop in which the characters of a line and then a
carriage return arrive, all at tick count `ms`. -/
def typed (ms : Nat) (line : String) : List (Nat × Option Nat) :=
  (bytes line ++ [13]).map (fun c => (ms, some c))

/-- The value of the leading decimal digits of a string, as a natural number,
started from `n`. -/
def decimalFrom : List Nat → Nat → Nat
  | [], n => n
  | c :: s, n =>
    if '0'.toNat ≤ c ∧ c ≤ '9'.toNat then decimalFrom s (n * 10 + (c - '0'.toNat)) else n

/-- The decimal value of an argument: that of its leading decimal digits, 0
when there is none. -/
def decimalValue (s : List Nat) : Nat := decimalFrom s 0

/-- The set bits of an 8-bit pattern are exactly one. -/
def oneHot (p : Nat) : Bool := (List.range 8).any (fun i => p == 2 ^ i)

/-- The part of the state that only `uart_task` and `process_message` write
through the buffer, and the chaser pattern, are the same in two states. -/
def sameBuffer (s t : Firmware) : Prop :=
  t.rx_buf = s.rx_buf ∧ t.rx_pos = s.rx_pos ∧ t.stores = s.stores ∧ t.handed = s.handed
    ∧ t.pattern = s.pattern

/-- The receive buffer is in order: the position is at most 31, the buffer has
its 32 cells, every store so far was at an index of at most 31, and every
buffer handed to `process_message` had 32 cells with a NUL among them. -/
def bufferSafe (s : Firmware) : Prop :=
  s.rx_pos ≤ 31 ∧ s.rx_buf.length = 32 ∧ (∀ i ∈ s.stores, i ≤ 31)
    ∧ (∀ b ∈ s.handed, b.length = 32 ∧ ∃ i, i ≤ 31 ∧ b[i]? = some 0)

/-- The turns of the loop of `main` after which the chaser is dark: seven
chaser updates, at tick counts 0, 120, ..., 720, bring the pattern to `0x80`
and turn the direction to right; the line `left` is typed at tick count 721;
the update at tick count 840 shifts the pattern left once more. -/
def darkRun : List (Nat × Option Nat) :=
  [(0, none), (120, none), (240, none), (360, none), (480, none), (600, none), (720, none)]
    ++ typed 721 "left" ++ [(840, none)]

/-- A state whose receive buffer holds the line `line`, NUL-terminated, as
`uart_task` leaves it when it calls `process_message`. -/
def holding (s : Firmware) (line : List Nat) (rest : List Nat) : Prop :=
  s.rx_buf = line ++ 0 :: rest ∧ ∀ c ∈ line, c ≠ 0

/-! ## Bit arithmetic -/

theorem and_two_pow_eq (v c : Nat) : v &&& 2 ^ c = if v.testBit c then 2 ^ c else 0 := by
  apply Nat.eq_of_testBit_eq
  intro j
  rw [Nat.testBit_and, Nat.testBit_two_pow]
  by_cases h : c = j
  · subst h
    cases hv : v.testBit c <;> simp [Nat.testBit_two_pow_self]
  · cases hv : v.testBit c <;> simp [h, Nat.testBit_two_pow_of_ne h]

theorem mask_mod (c : Nat) : (1 <<< c) % 65536 = if c < 16 then 2 ^ c else 0 := by
  rw [Nat.one_shiftLeft]
  split
  · next h =>
    apply Nat.mod_eq_of_lt
    calc 2 ^ c < 2 ^ 16 := Nat.pow_lt_pow_right (by decide) h
      _ = 65536 := by norm_num
  · next h =>
    have h16 : 16 ≤ c := Nat.le_of_not_lt h
    obtain ⟨k, rfl⟩ := Nat.exists_eq_add_of_le h16
    rw [pow_add]
    norm_num

/-- The level `ee_send_bits` puts on data-in is bit `c` of the 16-bit value. -/
theorem sent_bit (v c : Nat) :
    decide (v &&& ((1 <<< c) % 65536) ≠ 0) = (v % 65536).testBit c := by
  have h65 : (65536 : Nat) = 2 ^ 16 := by norm_num
  rw [mask_mod, h65, Nat.testBit_mod_two_pow]
  by_cases hc : c < 16
  · simp only [hc, if_true, decide_True, Bool.true_and]
    rw [and_two_pow_eq]
    cases hv : v.testBit c
    · simp
    · simp
  · simp [hc]

theorem frameEvents_zero (v : Nat) : frameEvents v 0 = [] := rfl

theorem frameEvents_succ (v n : Nat) :
    frameEvents v (n + 1) = bitEvents (v.testBit n) ++ frameEvents v n := by
  unfold frameEvents
  rw [List.range_succ_eq_map, List.flatMap_cons, List.flatMap_map]
  simp only [Function.comp, Nat.succ_eq_add_one, Nat.add_sub_cancel, Nat.sub_zero]
  congr 2
  funext i
  congr 2
  omega

/-! ## Traces and registers of the primitive accesses -/

section Primitive
variable (D : Device δ)

@[simp] theorem setDI_trace (b : Bool) (w : World δ) :
    (setDI D b w).trace = w.trace ++ [Ev.DI b] := rfl
@[simp] theorem setSK_trace (b : Bool) (w : World δ) :
    (setSK D b w).trace = w.trace ++ [Ev.SK b] := rfl
@[simp] theorem setCS_trace (b : Bool) (w : World δ) :
    (setCS D b w).trace = w.trace ++ [Ev.CS b] := rfl
@[simp] theorem readDO_trace (w : World δ) :
    (readDO D w).2.trace = w.trace ++ [Ev.DO (readDO D w).1] := rfl
@[simp] theorem setDI_cs (b : Bool) (w : World δ) : (setDI D b w).pins.cs = w.pins.cs := rfl
@[simp] theorem setSK_cs (b : Bool) (w : World δ) : (setSK D b w).pins.cs = w.pins.cs := rfl
@[simp] theorem setCS_cs (b : Bool) (w : World δ) : (setCS D b w).pins.cs = b := rfl
@[simp] theorem readDO_pins (w : World δ) : (readDO D w).2.pins = w.pins := rfl

theorem ee_clock_trace (w : World δ) :
    (ee_clock D w).trace = w.trace ++ [Ev.SK true, Ev.SK false] := by
  simp [ee_clock]

theorem ee_send_bits_trace (v n : Nat) (w : World δ) :
    (ee_send_bits D v n w).trace = w.trace ++ frameEvents (v % 65536) n := by
  induction n generalizing w with
  | zero => simp [ee_send_bits, frameEvents_zero]
  | succ n ih =>
    rw [ee_send_bits, ih, frameEvents_succ, ee_clock_trace, setDI_trace, sent_bit]
    simp [bitEvents]

theorem ee_send_bits_frame (v n : Nat) (hv : v < 65536) (w : World δ) :
    (ee_send_bits D v n w).trace = w.trace ++ frameEvents v n := by
  rw [ee_send_bits_trace, Nat.mod_eq_of_lt hv]

theorem ee_write_enable_trace (w : World δ) :
    (ee_write_enable D w).trace
      = w.trace ++ ewenEvents := by
  simp [ee_write_enable, ee_send_bits_frame, ewenEvents]

theorem ee_write_disable_trace (w : World δ) :
    (ee_write_disable D w).trace
      = w.trace ++ ewdsEvents := by
  simp [ee_write_disable, ee_send_bits_frame, ewdsEvents]

theorem ee_poll_trace (fuel : Nat) (w w' : World δ) (h : ee_poll D fuel w = some w') :
    ∃ k, k < fuel ∧ w'.pins = w.pins
      ∧ w'.trace = w.trace ++ (List.replicate k (Ev.DO false) ++ [Ev.DO true]) := by
  induction fuel generalizing w with
  | zero => simp [ee_poll] at h
  | succ fuel ih =>
    rw [ee_poll] at h
    by_cases hs : (readDO D w).1 = true
    · simp only [hs, if_true, Option.some.injEq] at h
      refine ⟨0, Nat.succ_pos _, ?_, ?_⟩
      · rw [← h]; rfl
      · rw [← h, readDO_trace, hs]; rfl
    · simp only [hs, if_false] at h
      obtain ⟨k, hk, hp, ht⟩ := ih _ h
      refine ⟨k + 1, Nat.succ_lt_succ hk, ?_, ?_⟩
      · rw [hp]; rfl
      · have hf : (readDO D w).1 = false := by simpa using hs
        rw [ht, readDO_trace, hf]
        simp [List.replicate_succ]

end Primitive

/-! ## Observations on frames -/

theorem diWrites_append (s t : List Ev) : diWrites (s ++ t) = diWrites s ++ diWrites t := by
  induction s with
  | nil => rfl
  | cons e s ih => cases e <;> simp [diWrites, ih]

theorem doReads_append (s t : List Ev) : doReads (s ++ t) = doReads s ++ doReads t := by
  induction s with
  | nil => rfl
  | cons e s ih => cases e <;> simp [doReads, ih]

theorem clockPulses_append (s t : List Ev) :
    clockPulses (s ++ t) = clockPulses s + clockPulses t := by
  simp [clockPulses]

theorem doReads_replicate (k : Nat) (b : Bool) :
    doReads (List.replicate k (Ev.DO b)) = List.replicate k b := by
  induction k with
  | zero => rfl
  | succ k ih => simp [List.replicate_succ, doReads, ih]

theorem diWrites_replicate_DO (k : Nat) (b : Bool) :
    diWrites (List.replicate k (Ev.DO b)) = [] := by
  induction k with
  | zero => rfl
  | succ k ih => simp [List.replicate_succ, diWrites, ih]

section Bits
variable (f : Nat → Bool)

theorem diWrites_bits (l : List Nat) :
    diWrites (l.flatMap (fun i => bitEvents (f i))) = l.map f := by
  induction l with
  | nil => rfl
  | cons a l ih => rw [List.flatMap_cons, diWrites_append, ih]; rfl

theorem doReads_bits (l : List Nat) :
    doReads (l.flatMap (fun i => bitEvents (f i))) = [] := by
  induction l with
  | nil => rfl
  | cons a l ih => rw [List.flatMap_cons, doReads_append, ih]; rfl

theorem clockPulses_bits (l : List Nat) :
    clockPulses (l.flatMap (fun i => bitEvents (f i))) = l.length := by
  induction l with
  | nil => rfl
  | cons a l ih =>
    rw [List.flatMap_cons, clockPulses_append, ih]
    simp [clockPulses, bitEvents, List.count_cons]
    omega

theorem length_bits (l : List Nat) :
    (l.flatMap (fun i => bitEvents (f i))).length = 3 * l.length := by
  induction l with
  | nil => rfl
  | cons a l ih =>
    rw [List.flatMap_cons, List.length_append, ih]
    simp [bitEvents]
    omega

theorem getElem_bits (l : List Nat) (i : Nat) (a : Nat) (h : l[i]? = some a) :
    (l.flatMap (fun i => bitEvents (f i)))[3 * i]? = some (Ev.DI (f a))
    ∧ (l.flatMap (fun i => bitEvents (f i)))[3 * i + 1]? = some (Ev.SK true)
    ∧ (l.flatMap (fun i => bitEvents (f i)))[3 * i + 2]? = some (Ev.SK false) := by
  induction l generalizing i with
  | nil => simp at h
  | cons b l ih =>
    cases i with
    | zero =>
      simp only [List.getElem?_cons_zero, Option.some.injEq] at h
      subst h
      simp [List.flatMap_cons, bitEvents]
    | succ i =>
      simp only [List.getElem?_cons_succ] at h
      have e0 : 3 * (i + 1) = 3 * i + 3 := by omega
      have e1 : 3 * (i + 1) + 1 = (3 * i + 1) + 3 := by omega
      have e2 : 3 * (i + 1) + 2 = (3 * i + 2) + 3 := by omega
      obtain ⟨h0, h1, h2⟩ := ih i h
      rw [e1, e2, e0]
      simp only [List.flatMap_cons, bitEvents, List.cons_append, List.nil_append,
        List.getElem?_cons_succ]
      exact ⟨h0, h1, h2⟩

end Bits

theorem diWrites_frameEvents (v n : Nat) :
    diWrites (frameEvents v n) = (List.range n).map (fun i => v.testBit (n - 1 - i)) :=
  diWrites_bits (fun i => v.testBit (n - 1 - i)) (List.range n)

theorem doReads_frameEvents (v n : Nat) : doReads (frameEvents v n) = [] :=
  doReads_bits (fun i => v.testBit (n - 1 - i)) (List.range n)

theorem clockPulses_frameEvents (v n : Nat) : clockPulses (frameEvents v n) = n := by
  rw [frameEvents, clockPulses_bits (fun i => v.testBit (n - 1 - i)), List.length_range]

theorem length_frameEvents (v n : Nat) : (frameEvents v n).length = 3 * n := by
  rw [frameEvents, length_bits (fun i => v.testBit (n - 1 - i)), List.length_range]

theorem bitsValue_snoc (bs : List Bool) (b : Bool) :
    bitsValue (bs ++ [b]) = 2 * bitsValue bs + (if b then 1 else 0) := by
  simp [bitsValue, List.foldl_append]

theorem bitsValue_map_testBit (v n : Nat) :
    bitsValue ((List.range n).map (fun i => v.testBit (n - 1 - i))) = v % 2 ^ n := by
  induction n generalizing v with
  | zero => simp [bitsValue, Nat.mod_one]
  | succ n ih =>
    have hmap : (List.range (n + 1)).map (fun i => v.testBit (n + 1 - 1 - i))
        = (List.range n).map (fun i => (v / 2).testBit (n - 1 - i)) ++ [v.testBit 0] := by
      rw [List.range_succ, List.map_append]
      congr 1
      · apply List.map_congr_left
        intro i hi
        have hi' : i < n := List.mem_range.mp hi
        have e : n + 1 - 1 - i = (n - 1 - i) + 1 := by omega
        rw [e, Nat.testBit_succ]
      · simp
    rw [hmap, bitsValue_snoc, ih, Nat.pow_succ, Nat.mul_comm (2 ^ n) 2, Nat.mod_mul,
      Nat.testBit_zero]
    by_cases h : v % 2 = 1
    · simp [h]; omega
    · have h0 : v % 2 = 0 := by omega
      simp [h0]

/-- The bits a frame puts on data-in, read most-significant first, are the
value modulo `2 ^ width`. -/
theorem bitsValue_frame (v n : Nat) : bitsValue (diWrites (frameEvents v n)) = v % 2 ^ n := by
  rw [diWrites_frameEvents, bitsValue_map_testBit]

/-! ## The busy-poll -/

/-- A poll against a device whose data-out reads low without changing its
state never ends. -/
theorem ee_poll_stuck (D : Device δ) (fuel : Nat) (w : World δ)
    (h : D.sample w.dev = (false, w.dev)) : ee_poll D fuel w = none := by
  induction fuel generalizing w with
  | zero => rfl
  | succ fuel ih =>
    rw [ee_poll]
    have h1 : (readDO D w).1 = false := by simp [readDO, h]
    have h2 : (readDO D w).2.dev = w.dev := by simp [readDO, h]
    simp only [h1, Bool.false_eq_true, if_false]
    exact ih _ (by rw [h2]; exact h)

/-- More fuel does not change the outcome of a poll that ended. -/
theorem ee_poll_mono (D : Device δ) (fuel k : Nat) (w w' : World δ)
    (h : ee_poll D fuel w = some w') : ee_poll D (fuel + k) w = some w' := by
  induction fuel generalizing w with
  | zero => simp [ee_poll] at h
  | succ fuel ih =>
    rw [Nat.succ_add, ee_poll]
    rw [ee_poll] at h
    by_cases hs : (readDO D w).1 = true
    · simpa [hs] using h
    · simp only [hs, if_false] at h ⊢
      exact ih _ h

theorem ee_write_byte_mono (D : Device δ) (fuel k a d : Nat) (w w' : World δ)
    (h : ee_write_byte D fuel a d w = some w') :
    ee_write_byte D (fuel + k) a d w = some w' := by
  unfold ee_write_byte at h ⊢
  split at h
  · exact absurd h (by simp)
  · next w7 hp => rw [ee_poll_mono D _ k _ _ hp]; exact h

theorem roundTrip_mono (D : Device δ) (fuel k a d v : Nat) (w : World δ)
    (h : roundTrip D fuel a d w = some v) : roundTrip D (fuel + k) a d w = some v := by
  unfold roundTrip at h ⊢
  split at h
  · exact absurd h (by simp)
  · next w1 hw => rw [ee_write_byte_mono D _ k _ _ _ _ hw]; exact h

theorem roundTrip_zero (D : Device δ) (a d : Nat) (w : World δ) :
    roundTrip D 0 a d w = none := by
  simp [roundTrip, ee_write_byte, ee_poll]

theorem Eeprom.sample_quietLow (e : Eeprom) (h : e.quietLow = true) :
    Eeprom.sample e = (false, e) := by
  unfold Eeprom.quietLow at h
  unfold Eeprom.sample
  split at h
  · exact absurd h (by simp)
  · simp only [Bool.not_eq_true'] at h
    simp [h]

theorem eeprom_sample_quietLow (cfg : DevCfg) (e : Eeprom) (h : e.quietLow = true) :
    (eeprom cfg).sample e = (false, e) := Eeprom.sample_quietLow e h

theorem ee_write_byte_eq (D : Device δ) (fuel a d : Nat) (w : World δ) :
    ee_write_byte D fuel a d w
      = (ee_poll D fuel (prePoll D a d w)).map
          (fun w7 => ee_write_disable D (setCS D false w7)) := by
  unfold ee_write_byte
  cases ee_poll D fuel (prePoll D a d w) <;> rfl

theorem roundTrip_stuck (D : Device δ) (fuel a d : Nat) (w : World δ)
    (h : D.sample (prePoll D a d w).dev = (false, (prePoll D a d w).dev)) :
    roundTrip D fuel a d w = none := by
  unfold roundTrip
  rw [ee_write_byte_eq, ee_poll_stuck D fuel (prePoll D a d w) h]
  rfl

set_option maxRecDepth 100000 in
theorem datasheet_session_reads_back :
    ∀ fh sz : Bool,
      (feed (eeprom ⟨fh, sz, 3⟩) (datasheetSession 0x10 0xA5 5)
        (Eeprom.powerUp ⟨fh, sz, 3⟩ (fun _ => 0xFF))).1
        = [false, false, false, true, true] ++ byteBits 0xA5 := by
  decide

set_option maxRecDepth 100000 in
theorem bench_high : ∀ sz : Bool,
    roundTrip (eeprom ⟨true, sz, 1⟩) 1 0x10 0xA5 (bench ⟨true, sz, 1⟩) = some 0xFF := by
  decide

set_option maxRecDepth 100000 in
theorem bench_low : ∀ sz : Bool,
    Eeprom.quietLow (prePoll (eeprom ⟨false, sz, 1⟩) 0x10 0xA5 (bench ⟨false, sz, 1⟩)).dev
      = true := by
  decide

theorem roundTrip_bench (fh sz : Bool) (fuel : Nat) :
    roundTrip (eeprom ⟨fh, sz, 1⟩) fuel 0x10 0xA5 (bench ⟨fh, sz, 1⟩)
      = if fh = true ∧ 0 < fuel then some 0xFF else none := by
  cases fh
  · simp only [Bool.false_eq_true, false_and, if_false]
    exact roundTrip_stuck (eeprom ⟨false, sz, 1⟩) fuel 0x10 0xA5 (bench ⟨false, sz, 1⟩)
      (eeprom_sample_quietLow ⟨false, sz, 1⟩ _ (bench_low sz))
  · cases fuel with
    | zero => simp [roundTrip_zero]
    | succ n =>
      have h := roundTrip_mono _ 1 n _ _ _ _ (bench_high sz)
      rw [Nat.add_comm] at h
      simp [h]

/-! ## The operations -/

section Operations
variable (D : Device δ)

theorem ee_send_bits_cs (v n : Nat) (w : World δ) :
    (ee_send_bits D v n w).pins.cs = w.pins.cs := by
  induction n generalizing w with
  | zero => rfl
  | succ n ih => rw [ee_send_bits, ih]; rfl

theorem ee_read_byte_loop_diWrites (n r : Nat) (w : World δ) :
    diWrites (ee_read_byte_loop D n r w).2.trace = diWrites w.trace := by
  induction n generalizing r w with
  | zero => rfl
  | succ n ih =>
    rw [ee_read_byte_loop, ih, readDO_trace, ee_clock_trace, diWrites_append, diWrites_append]
    simp [diWrites]

theorem ee_read_byte_diWrites (a : Nat) (ha : a < 256) (w : World δ) :
    diWrites (ee_read_byte D a w).2.trace
      = diWrites w.trace ++ diWrites (frameEvents (0x600 ||| a) 9) := by
  have h1 : (0x600 ||| a) < 65536 :=
    Nat.or_lt_two_pow (n := 16) (by norm_num) (by omega)
  unfold ee_read_byte
  simp only
  rw [setCS_trace, diWrites_append, ee_read_byte_loop_diWrites,
    ee_send_bits_frame D _ _ h1, setCS_trace, diWrites_append, diWrites_append]
  simp [diWrites]

theorem prePoll_trace (a d : Nat) (ha : a < 256) (hd : d < 256) (w : World δ) :
    (prePoll D a d w).trace = w.trace ++ ewenEvents ++ writeEvents a d ++ [Ev.CS true] := by
  have h1 : (0x500 ||| a) < 65536 :=
    Nat.or_lt_two_pow (n := 16) (by norm_num) (by omega)
  have h2 : d < 65536 := by omega
  unfold prePoll
  simp only
  rw [setCS_trace, setCS_trace, ee_send_bits_frame D _ _ h2, ee_send_bits_frame D _ _ h1,
    setCS_trace, ee_write_enable_trace]
  simp [writeEvents]

theorem prePoll_doReads (a d : Nat) (w : World δ) :
    doReads (prePoll D a d w).trace = doReads w.trace := by
  unfold prePoll ee_write_enable
  simp only [setCS_trace, ee_send_bits_trace, doReads_append, doReads_frameEvents]
  simp [doReads]

theorem ee_write_disable_doReads (w : World δ) :
    doReads (ee_write_disable D w).trace = doReads w.trace := by
  rw [ee_write_disable_trace, doReads_append]
  simp [ewdsEvents, doReads, doReads_append, doReads_frameEvents]

theorem ee_write_byte_trace (fuel a d : Nat) (ha : a < 256) (hd : d < 256)
    (w w' : World δ) (h : ee_write_byte D fuel a d w = some w') :
    ∃ k, k < fuel ∧ w'.trace
      = w.trace ++ ewenEvents ++ writeEvents a d ++ pollEvents k ++ ewdsEvents := by
  rw [ee_write_byte_eq] at h
  cases hp : ee_poll D fuel (prePoll D a d w) with
  | none => rw [hp] at h; exact absurd h (by simp)
  | some w7 =>
    rw [hp] at h
    simp only [Option.map_some', Option.some.injEq] at h
    obtain ⟨k, hk, _, ht⟩ := ee_poll_trace D _ _ _ hp
    refine ⟨k, hk, ?_⟩
    rw [← h, ee_write_disable_trace, setCS_trace, ht, prePoll_trace D a d ha hd]
    simp [pollEvents]

theorem ee_read_byte_cs (a : Nat) (w : World δ) : (ee_read_byte D a w).2.pins.cs = false := rfl

theorem ee_write_enable_cs (w : World δ) : (ee_write_enable D w).pins.cs = false := rfl

theorem ee_write_disable_cs (w : World δ) : (ee_write_disable D w).pins.cs = false := rfl

theorem ee_write_byte_cs (fuel a d : Nat) (w w' : World δ)
    (h : ee_write_byte D fuel a d w = some w') : w'.pins.cs = false := by
  rw [ee_write_byte_eq] at h
  cases hp : ee_poll D fuel (prePoll D a d w) with
  | none => rw [hp] at h; exact absurd h (by simp)
  | some w7 =>
    rw [hp] at h
    simp only [Option.map_some', Option.some.injEq] at h
    rw [← h]
    rfl

theorem runOp_cs (fuel : Nat) (op : Op) (w w' : World δ) (h : runOp D fuel op w = some w') :
    w'.pins.cs = false := by
  cases op with
  | read a =>
    simp only [runOp, Option.some.injEq] at h
    rw [← h]; rfl
  | enable =>
    simp only [runOp, Option.some.injEq] at h
    rw [← h]; rfl
  | disable =>
    simp only [runOp, Option.some.injEq] at h
    rw [← h]; rfl
  | write a d => exact ee_write_byte_cs D fuel a d w w' h

theorem runOps_cs (fuel : Nat) (ops : List Op) (hne : ops ≠ []) (w w' : World δ)
    (h : runOps D fuel ops w = some w') : w'.pins.cs = false := by
  induction ops generalizing w with
  | nil => exact absurd rfl hne
  | cons op ops ih =>
    rw [runOps] at h
    cases h1 : runOp D fuel op w with
    | none => rw [h1] at h; exact absurd h (by simp)
    | some w1 =>
      rw [h1] at h
      simp only [Option.some_bind] at h
      cases ops with
      | nil =>
        simp only [runOps, Option.some.injEq] at h
        rw [← h]
        exact runOp_cs D fuel op w w1 h1
      | cons op2 ops2 => exact ih (by simp) w1 h

/-- Against a device whose data-out always reads high the busy-poll ends at
its first sample. -/
theorem ee_write_byte_ready (h : ∀ s, (D.sample s).1 = true) (fuel a d : Nat) (w : World δ) :
    ee_write_byte D (fuel + 1) a d w
      = some (ee_write_disable D (setCS D false (readDO D (prePoll D a d w)).2)) := by
  rw [ee_write_byte_eq, ee_poll]
  have h1 : (readDO D (prePoll D a d w)).1 = true := h _
  simp [h1]

/-- Against a device whose data-out never reads high the busy-poll never ends. -/
theorem ee_poll_never (h : ∀ s, (D.sample s).1 = false) (fuel : Nat) (w : World δ) :
    ee_poll D fuel w = none := by
  induction fuel generalizing w with
  | zero => rfl
  | succ fuel ih =>
    rw [ee_poll]
    have h1 : (readDO D w).1 = false := h _
    simp only [h1, Bool.false_eq_true, if_false]
    exact ih _

end Operations

/-! ## The counting mock of the busy-poll -/

theorem oracle_send_bits_dev (level : Nat → Bool) (v n : Nat) (w : World Nat) :
    (ee_send_bits (oracle level) v n w).dev = w.dev := by
  induction n generalizing w with
  | zero => rfl
  | succ n ih => rw [ee_send_bits, ih]; rfl

theorem oracle_prePoll_dev (level : Nat → Bool) (a d : Nat) (w : World Nat) :
    (prePoll (oracle level) a d w).dev = w.dev := by
  unfold prePoll ee_write_enable
  simp only [setCS, oracle_send_bits_dev]
  rfl

/-- With `m` low samples left, a poll with more than `m` samples of fuel ends
after exactly `m` low samples and one high sample. -/
theorem lowFor_poll_ends (N : Nat) (m fuel : Nat) (w : World Nat) (hm : w.dev + m = N)
    (hf : m < fuel) :
    ∃ w', ee_poll (lowFor N) fuel w = some w'
      ∧ w'.trace = w.trace ++ (List.replicate m (Ev.DO false) ++ [Ev.DO true]) := by
  induction m generalizing fuel w with
  | zero =>
    obtain ⟨f, rfl⟩ := Nat.exists_eq_succ_of_ne_zero (Nat.ne_of_gt hf)
    have hs : (readDO (lowFor N) w).1 = true := by
      simp [readDO, lowFor, oracle]; omega
    refine ⟨(readDO (lowFor N) w).2, ?_, ?_⟩
    · rw [ee_poll]; simp [hs]
    · rw [readDO_trace, hs]; rfl
  | succ m ih =>
    obtain ⟨f, rfl⟩ := Nat.exists_eq_succ_of_ne_zero (Nat.ne_of_gt (Nat.lt_of_le_of_lt (Nat.zero_le _) hf))
    have hs : (readDO (lowFor N) w).1 = false := by
      simp [readDO, lowFor, oracle]; omega
    have hd : (readDO (lowFor N) w).2.dev + m = N := by
      simp [readDO, lowFor, oracle]; omega
    obtain ⟨w', h1, h2⟩ := ih f _ hd (Nat.lt_of_succ_lt_succ hf)
    refine ⟨w', ?_, ?_⟩
    · rw [ee_poll]; simp only [hs, Bool.false_eq_true, if_false]; exact h1
    · rw [h2, readDO_trace, hs]; simp [List.replicate_succ]

/-- With `m` low samples left, a poll with at most `m` samples of fuel does
not end. -/
theorem lowFor_poll_short (N : Nat) (fuel m : Nat) (w : World Nat) (hm : w.dev + m = N)
    (hf : fuel ≤ m) : ee_poll (lowFor N) fuel w = none := by
  induction fuel generalizing m w with
  | zero => rfl
  | succ f ih =>
    obtain ⟨m', rfl⟩ := Nat.exists_eq_succ_of_ne_zero (Nat.ne_of_gt (Nat.lt_of_lt_of_le (Nat.succ_pos f) hf))
    have hs : (readDO (lowFor N) w).1 = false := by
      simp [readDO, lowFor, oracle]; omega
    have hd : (readDO (lowFor N) w).2.dev + m' = N := by
      simp [readDO, lowFor, oracle]; omega
    rw [ee_poll]
    simp only [hs, Bool.false_eq_true, if_false]
    exact ih m' _ hd (Nat.le_of_succ_le_succ hf)

/-! ## Frame contents -/

set_option maxRecDepth 100000 in
theorem read_frame_bits : ∀ a : Fin 64,
    diWrites (frameEvents (0x600 ||| a.val) 9)
      = [false, false, false, a.val.testBit 5, a.val.testBit 4, a.val.testBit 3,
         a.val.testBit 2, a.val.testBit 1, a.val.testBit 0] := by
  decide

set_option maxRecDepth 100000 in
theorem write_frame_bits : ∀ a : Fin 64,
    diWrites (frameEvents (0x500 ||| a.val) 9)
      = [true, false, false, a.val.testBit 5, a.val.testBit 4, a.val.testBit 3,
         a.val.testBit 2, a.val.testBit 1, a.val.testBit 0] := by
  decide

set_option maxRecDepth 100000 in
theorem read_header_mod : ∀ a : Fin 64,
    (0x600 ||| a.val) % 2 ^ 9 = a.val ∧ a.val ≠ 0x180 ||| a.val := by
  decide

set_option maxRecDepth 100000 in
theorem write_header_mod : ∀ a : Fin 64,
    (0x500 ||| a.val) % 2 ^ 9 = 0x100 ||| a.val ∧ (0x100 ||| a.val) % 64 = a.val
      ∧ (0x100 ||| a.val) / 64 = 4 ∧ 0x100 ||| a.val ≠ 0x140 ||| a.val := by
  decide

theorem data_frame_bits (d : Nat) :
    diWrites (frameEvents d 8)
      = [d.testBit 7, d.testBit 6, d.testBit 5, d.testBit 4, d.testBit 3, d.testBit 2,
         d.testBit 1, d.testBit 0] := by
  rw [diWrites_frameEvents]
  rfl

theorem ewen_frame_bits :
    diWrites (frameEvents 0x980 9)
      = [true, true, false, false, false, false, false, false, false] := by
  decide

theorem ewds_frame_bits :
    diWrites (frameEvents 0x000 9)
      = [false, false, false, false, false, false, false, false, false] := by
  decide

theorem readCommand_eq (D : Device δ) (a : Nat) (ha : a < 256) (w : World δ) :
    readCommand D a w = (0x600 ||| a) % 2 ^ 9 := by
  unfold readCommand
  rw [ee_read_byte_diWrites D a ha, show diWrites ([] : List Ev) = [] from rfl,
    List.nil_append]
  exact bitsValue_frame _ _

theorem prePoll_diWrites (D : Device δ) (a d : Nat) (ha : a < 256) (hd : d < 256)
    (w : World δ) :
    diWrites (prePoll D a d { w with trace := [] }).trace
      = diWrites (frameEvents 0x980 9)
        ++ (diWrites (frameEvents (0x500 ||| a) 9) ++ diWrites (frameEvents d 8)) := by
  rw [prePoll_trace D a d ha hd]
  simp [ewenEvents, writeEvents, diWrites_append, diWrites]

theorem writeCommand_eq (D : Device δ) (a d : Nat) (ha : a < 256) (hd : d < 256)
    (w : World δ) : writeCommand D a d w = (0x500 ||| a) % 2 ^ 9 := by
  unfold writeCommand
  rw [prePoll_diWrites D a d ha hd, ewen_frame_bits]
  have hlen : (diWrites (frameEvents (0x500 ||| a) 9)).length = 9 := by
    rw [diWrites_frameEvents]; simp
  have h9 : List.drop 9 ([true, true, false, false, false, false, false, false, false]
      ++ (diWrites (frameEvents (0x500 ||| a) 9) ++ diWrites (frameEvents d 8)))
      = diWrites (frameEvents (0x500 ||| a) 9) ++ diWrites (frameEvents d 8) := rfl
  rw [h9, List.take_left' hlen]
  exact bitsValue_frame _ _

/-! ## The claims -/

/-- C1 (round trip), evaluated at the self-test's case, address `0x10` and data
`0xA5`, on the bench: an erased simulated device, registers at power-on, after
`ee_init`.  Whatever the floating level of data-out (`fh`) and whether or not
the device skips zeros before the start bit (`sz`), `ee_write_byte` followed by
`ee_read_byte` does not give `0xA5` back: where data-out floats high the byte
read is `0xFF`, where it floats low the busy-poll never ends, for no fuel.  The
same simulated device, driven with the frames of the data sheet, does store
and return `0xA5`. -/
theorem self_test_round_trip_fails (fh sz : Bool) (fuel : Nat) :
    roundTrip (eeprom (DevCfg.mk fh sz 1)) fuel 0x10 0xA5 (bench (DevCfg.mk fh sz 1))
        = (if fh = true ∧ 0 < fuel then some 0xFF else none)
    ∧ roundTrip (eeprom (DevCfg.mk fh sz 1)) fuel 0x10 0xA5 (bench (DevCfg.mk fh sz 1))
        ≠ some 0xA5
    ∧ (feed (eeprom (DevCfg.mk fh sz 3)) (datasheetSession 0x10 0xA5 5)
        (Eeprom.powerUp (DevCfg.mk fh sz 3) (fun _ => 0xFF))).1
        = [false, false, false, true, true] ++ byteBits 0xA5 := by
  refine ⟨roundTrip_bench fh sz fuel, ?_, datasheet_session_reads_back fh sz⟩
  rw [roundTrip_bench]
  split <;> simp

/-- C2 (frame shape).  For every 16-bit value and every width,
`ee_send_bits(value, width)` appends to the trace exactly the events of
`frameEvents value width`: there are `3 * width` of them, the events `3i`,
`3i+1`, `3i+2` (for `i < width`) are the write of bit `width-1-i` of the value
to data-in, the rising and the falling edge of the clock, so that data-in is
written `width` times, most-significant bit first, each write is followed by
one clock pulse, there are `width` pulses and none before the first write; for
width 0 the state of the world is unchanged. -/
theorem send_bits_frame_shape (D : Device δ) (value width : Nat) (hv : value < 65536)
    (w : World δ) :
    (ee_send_bits D value width w).trace = w.trace ++ frameEvents value width
    ∧ (frameEvents value width).length = 3 * width
    ∧ (∀ i, i < width →
        (frameEvents value width)[3 * i]? = some (Ev.DI (value.testBit (width - 1 - i)))
        ∧ (frameEvents value width)[3 * i + 1]? = some (Ev.SK true)
        ∧ (frameEvents value width)[3 * i + 2]? = some (Ev.SK false))
    ∧ diWrites (frameEvents value width)
        = (List.range width).map (fun i => value.testBit (width - 1 - i))
    ∧ clockPulses (frameEvents value width) = width
    ∧ ee_send_bits D value 0 w = w := by
  refine ⟨ee_send_bits_frame D value width hv w, length_frameEvents value width, ?_,
    diWrites_frameEvents value width, clockPulses_frameEvents value width, rfl⟩
  intro i hi
  exact getElem_bits (fun i => value.testBit (width - 1 - i)) (List.range width) i i
    (by simp [List.getElem?_range hi])

/-- Witness of C2: the frame `0x610`, width 9, sent on the always-ready mock
from power-on. -/
theorem send_bits_frame_shape_witness :
    0x610 < 65536
    ∧ diWrites (ee_send_bits alwaysReady 0x610 9 (World.mk powerOn 0 [])).trace
        = [false, false, false, false, true, false, false, false, false] := by
  refine ⟨by decide, ?_⟩
  rw [(send_bits_frame_shape alwaysReady 0x610 9 (by decide) (World.mk powerOn 0 [])).1]
  decide

/-- C3 (idle on exit).  Whatever the state on entry, `ee_read_byte`,
`ee_write_enable`, `ee_write_disable` and, when its poll ends, `ee_write_byte`
return with `EE_CS = 0`; and in a sequence of calls `ops` followed by a call
`op`, chip-select is low when `op` returns and, when `op` follows another call
(`ops` is not empty), also when `op` is entered. -/
theorem idle_on_exit (D : Device δ) (fuel : Nat) (ops : List Op) (op : Op)
    (w w1 w2 : World δ) (h1 : runOps D fuel ops w = some w1)
    (h2 : runOp D fuel op w1 = some w2) :
    w2.pins.cs = false
    ∧ (ops ≠ [] → w1.pins.cs = false)
    ∧ (∀ a, (ee_read_byte D a w).2.pins.cs = false)
    ∧ (ee_write_enable D w).pins.cs = false
    ∧ (ee_write_disable D w).pins.cs = false
    ∧ (∀ a d w', ee_write_byte D fuel a d w = some w' → w'.pins.cs = false) :=
  ⟨runOp_cs D fuel op w1 w2 h2, fun hne => runOps_cs D fuel ops hne w w1 h1,
    fun a => ee_read_byte_cs D a w, ee_write_enable_cs D w, ee_write_disable_cs D w,
    fun a d w' h => ee_write_byte_cs D fuel a d w w' h⟩

/-- Witness of C3: after `ee_init` (which leaves chip-select high), a write of
`0xA5` to `0x10` followed by a read of `0x10` on the always-ready mock. -/
theorem idle_on_exit_witness :
    ∃ w1 w2 : World Nat,
      runOps alwaysReady 1 [Op.write 0x10 0xA5] (ee_init alwaysReady (World.mk powerOn 0 []))
        = some w1
      ∧ runOp alwaysReady 1 (Op.read 0x10) w1 = some w2
      ∧ w1.pins.cs = false ∧ w2.pins.cs = false := by
  have ha : ∀ s, (alwaysReady.sample s).1 = true := fun _ => rfl
  have h1 : runOps alwaysReady 1 [Op.write 0x10 0xA5]
      (ee_init alwaysReady (World.mk powerOn 0 []))
      = some (ee_write_disable alwaysReady (setCS alwaysReady false
          (readDO alwaysReady (prePoll alwaysReady 0x10 0xA5
            (ee_init alwaysReady (World.mk powerOn 0 [])))).2)) := by
    simp only [runOps, runOp]
    rw [ee_write_byte_ready alwaysReady ha 0]
    rfl
  have h := idle_on_exit alwaysReady 1 [Op.write 0x10 0xA5] (Op.read 0x10) _ _ _ h1 rfl
  exact ⟨_, _, h1, rfl, h.2.1 (by simp), h.1⟩

/-- C4 (select after initialisation), evaluated on the code: from every state
`ee_init` returns with `EE_CS = 1`, the level the operations write to assert
select, while data-in and clock are left low; the operations themselves return
with `EE_CS = 0`.  The last line access of `ee_init` is the write of 1 to
chip-select. -/
theorem ee_init_leaves_select_high (D : Device δ) (w : World δ) (a : Nat) :
    (ee_init D w).pins.cs = true
    ∧ (ee_init D w).pins.di = false
    ∧ (ee_init D w).pins.sk = false
    ∧ (ee_init D w).trace = w.trace ++ [Ev.DI false, Ev.SK false, Ev.CS true]
    ∧ (ee_read_byte D a (ee_init D w)).2.pins.cs = false
    ∧ (ee_write_enable D (ee_init D w)).pins.cs = false
    ∧ (ee_write_disable D (ee_init D w)).pins.cs = false := by
  refine ⟨rfl, rfl, rfl, ?_, rfl, rfl, rfl⟩
  simp [ee_init]

/-- C5 (enable/disable bracketing).  The line activity of `ee_write_enable` is
`ewenEvents` and that of `ee_write_disable` is `ewdsEvents`, from every state;
and when `ee_write_byte` returns, what it appended to the trace is, in order
and with nothing in between: `ewenEvents`; select asserted, the 9-bit frame of
`0x500 | address`, the 8-bit frame of the data, select deasserted; select
asserted, `k` low samples and one high sample of data-out, select deasserted;
`ewdsEvents`. -/
theorem write_byte_bracketing (D : Device δ) (fuel address data : Nat)
    (ha : address < 256) (hd : data < 256) (w w' : World δ)
    (h : ee_write_byte D fuel address data w = some w') :
    (∀ v : World δ, (ee_write_enable D v).trace = v.trace ++ ewenEvents)
    ∧ (∀ v : World δ, (ee_write_disable D v).trace = v.trace ++ ewdsEvents)
    ∧ ∃ k, k < fuel ∧ w'.trace
        = w.trace ++ ewenEvents ++ writeEvents address data ++ pollEvents k ++ ewdsEvents :=
  ⟨ee_write_enable_trace D, ee_write_disable_trace D,
    ee_write_byte_trace D fuel address data ha hd w w' h⟩

/-- Witness of C5: the write of `0xA5` to `0x10` on the always-ready mock,
whose poll ends at the first sample. -/
theorem write_byte_bracketing_witness :
    ∃ w' : World Nat,
      ee_write_byte alwaysReady 1 0x10 0xA5 (World.mk powerOn 0 []) = some w'
      ∧ ∃ k, k < 1 ∧ w'.trace
          = [] ++ ewenEvents ++ writeEvents 0x10 0xA5 ++ pollEvents k ++ ewdsEvents :=
  ⟨_, ee_write_byte_ready alwaysReady (fun _ => rfl) 0 0x10 0xA5 (World.mk powerOn 0 []),
    (write_byte_bracketing alwaysReady 1 0x10 0xA5 (by decide) (by decide)
      (World.mk powerOn 0 []) _
      (ee_write_byte_ready alwaysReady (fun _ => rfl) 0 0x10 0xA5 (World.mk powerOn 0 []))).2.2⟩

/-- C6 (busy-poll termination).  Against the mock whose data-out reads low for
the first `N` samples and high from then on, `ee_write_byte` returns for every
fuel above `N`, having sampled data-out `N` times low and then once high; with
`N` samples or fewer it has not returned.  Against any device whose data-out
never reads high it returns for no fuel. -/
theorem busy_poll_termination (N address data : Nat) (pins : Pins) (tr : List Ev) :
    (∀ fuel, N < fuel →
      ∃ w', ee_write_byte (lowFor N) fuel address data (World.mk pins 0 tr) = some w'
        ∧ doReads w'.trace = doReads tr ++ (List.replicate N false ++ [true]))
    ∧ (∀ fuel, fuel ≤ N →
        ee_write_byte (lowFor N) fuel address data (World.mk pins 0 tr) = none)
    ∧ (∀ (σ : Type) (D : Device σ) (v : World σ), (∀ s, (D.sample s).1 = false) →
        ∀ fuel, ee_write_byte D fuel address data v = none) := by
  have hdev : (prePoll (lowFor N) address data (World.mk pins 0 tr)).dev + N = N := by
    rw [lowFor, oracle_prePoll_dev]; simp
  refine ⟨?_, ?_, ?_⟩
  · intro fuel hf
    obtain ⟨w7, h1, h2⟩ := lowFor_poll_ends N N fuel _ hdev hf
    refine ⟨ee_write_disable (lowFor N) (setCS (lowFor N) false w7), ?_, ?_⟩
    · rw [ee_write_byte_eq, h1]; rfl
    · rw [ee_write_disable_doReads, setCS_trace, h2, doReads_append, doReads_append,
        prePoll_doReads, doReads_append, doReads_replicate]
      simp [doReads]
  · intro fuel hf
    rw [ee_write_byte_eq, lowFor_poll_short N fuel N _ hdev hf]
    rfl
  · intro σ D v hlow fuel
    rw [ee_write_byte_eq, ee_poll_never D hlow]
    rfl

/-- C7 (boundary addresses).  For every address in [0,63] the 9-bit command
value put on data-in by `ee_read_byte` is bits 8..0 of `0x600 | address`, that
of `ee_write_byte` is bits 8..0 of `0x500 | address`; in both the low six bits
are the address and bits 8..6 are those of the header alone. -/
theorem boundary_addresses (D : Device δ) (address data : Nat) (ha : address < 64)
    (hd : data < 256) (w : World δ) :
    readCommand D address w = (0x600 ||| address) % 2 ^ 9
    ∧ readCommand D address w % 64 = address
    ∧ readCommand D address w / 64 = 0x600 % 2 ^ 9 / 64
    ∧ writeCommand D address data w = (0x500 ||| address) % 2 ^ 9
    ∧ writeCommand D address data w % 64 = address
    ∧ writeCommand D address data w / 64 = 0x500 % 2 ^ 9 / 64 := by
  have hr := readCommand_eq D address (by omega) w
  have hw := writeCommand_eq D address data (by omega) hd w
  have h6 := read_header_mod ⟨address, ha⟩
  have h5 := write_header_mod ⟨address, ha⟩
  simp only at h6 h5
  refine ⟨hr, ?_, ?_, hw, ?_, ?_⟩
  · rw [hr, h6.1]; exact Nat.mod_eq_of_lt ha
  · rw [hr, h6.1, Nat.div_eq_of_lt ha]; rfl
  · rw [hw, h5.1]; exact h5.2.1
  · rw [hw, h5.1, h5.2.2.1]; rfl

/-- Witness of C7: the boundary address 63 (with data `0xA5`) on the
always-ready mock. -/
theorem boundary_addresses_witness :
    63 < 64 ∧ 0xA5 < 256
    ∧ readCommand alwaysReady 63 (World.mk powerOn 0 []) % 64 = 63
    ∧ writeCommand alwaysReady 63 0xA5 (World.mk powerOn 0 []) % 64 = 63 :=
  ⟨by decide, by decide,
    (boundary_addresses alwaysReady 63 0xA5 (by decide) (by decide)
      (World.mk powerOn 0 [])).2.1,
    (boundary_addresses alwaysReady 63 0xA5 (by decide) (by decide)
      (World.mk powerOn 0 [])).2.2.2.2.1⟩

/-- C8 (READ frame), evaluated on the code: for every address in [0,63] the
nine bits `ee_read_byte` puts on data-in are 0, 0, 0 and then the address bits
5..0; the frame is the bare address, without start bit and opcode, and differs
from `0x180 | address`. -/
theorem read_frame_is_bare_address (D : Device δ) (w : World δ) (address : Fin 64) :
    diWrites (ee_read_byte D address.val { w with trace := [] }).2.trace
      = [false, false, false, address.val.testBit 5, address.val.testBit 4,
         address.val.testBit 3, address.val.testBit 2, address.val.testBit 1,
         address.val.testBit 0]
    ∧ readCommand D address.val w = address.val
    ∧ readCommand D address.val w ≠ 0x180 ||| address.val := by
  have ha : address.val < 256 := by omega
  have hr := readCommand_eq D address.val ha w
  have h6 := read_header_mod address
  refine ⟨?_, ?_, ?_⟩
  · rw [ee_read_byte_diWrites D address.val ha, read_frame_bits address]
    rfl
  · rw [hr, h6.1]
  · rw [hr, h6.1]; exact h6.2

/-- C9 (WRITE frame), evaluated on the code: for every address in [0,63] and
data in [0,255] the write transaction of `ee_write_byte` is one select-asserted
span holding the 9-bit and the 8-bit frame, and the seventeen bits on data-in
are 1, 0, 0, the address bits 5..0 and the data bits 7..0; the command frame
is `0x100 | address`, opcode 00, and differs from `0x140 | address`. -/
theorem write_frame_has_opcode_00 (D : Device δ) (w : World δ) (address : Fin 64)
    (data : Fin 256) :
    (prePoll D address.val data.val w).trace
      = w.trace ++ ewenEvents ++ writeEvents address.val data.val ++ [Ev.CS true]
    ∧ diWrites (writeEvents address.val data.val)
      = [true, false, false, address.val.testBit 5, address.val.testBit 4,
         address.val.testBit 3, address.val.testBit 2, address.val.testBit 1,
         address.val.testBit 0, data.val.testBit 7, data.val.testBit 6, data.val.testBit 5,
         data.val.testBit 4, data.val.testBit 3, data.val.testBit 2, data.val.testBit 1,
         data.val.testBit 0]
    ∧ writeCommand D address.val data.val w = 0x100 ||| address.val
    ∧ writeCommand D address.val data.val w ≠ 0x140 ||| address.val := by
  have ha : address.val < 256 := by omega
  have hw := writeCommand_eq D address.val data.val ha data.isLt w
  have h5 := write_header_mod address
  refine ⟨prePoll_trace D address.val data.val ha data.isLt w, ?_, ?_, ?_⟩
  · have hsplit : diWrites (writeEvents address.val data.val)
        = diWrites (frameEvents (0x500 ||| address.val) 9)
          ++ diWrites (frameEvents data.val 8) := by
      simp [writeEvents, diWrites_append, diWrites]
    rw [hsplit, write_frame_bits address, data_frame_bits]
    rfl
  · rw [hw, h5.1]
  · rw [hw, h5.1]; exact h5.2.2.2

/-- C10 (EWEN / EWDS frames), evaluated on the code: `ee_write_enable` and
`ee_write_disable` each assert select once, send nine bits and deassert select
once, from every state; the nine bits of `ee_write_enable` are 1,1,0,0,0,0,0,0,0
and those of `ee_write_disable` are nine zeros, so the first five are neither
1,0,0,1,1 nor 1,0,0,0,0. -/
theorem ewen_ewds_frames_on_the_wire (D : Device δ) (w : World δ) :
    (ee_write_enable D w).trace
      = w.trace ++ (Ev.CS true :: frameEvents 0x980 9 ++ [Ev.CS false])
    ∧ (ee_write_disable D w).trace
      = w.trace ++ (Ev.CS true :: frameEvents 0x000 9 ++ [Ev.CS false])
    ∧ diWrites (frameEvents 0x980 9)
      = [true, true, false, false, false, false, false, false, false]
    ∧ (diWrites (frameEvents 0x980 9)).take 5 ≠ [true, false, false, true, true]
    ∧ diWrites (frameEvents 0x000 9)
      = [false, false, false, false, false, false, false, false, false]
    ∧ (diWrites (frameEvents 0x000 9)).take 5 ≠ [true, false, false, false, false] := by
  refine ⟨ee_write_enable_trace D w, ee_write_disable_trace D w, ewen_frame_bits, ?_,
    ewds_frame_bits, ?_⟩
  · rw [ewen_frame_bits]; decide
  · rw [ewds_frame_bits]; decide

/-! ## The data phase of a read -/

set_option maxRecDepth 100000 in
theorem shift_or_one : ∀ r : Fin 256,
    (r.val <<< 1) % 256 ||| 1 = (2 * r.val) % 256 + 1 ∧ (r.val <<< 1) % 256 = (2 * r.val) % 256 := by
  decide

theorem sampleEvents_cons (b : Bool) (bs : List Bool) :
    sampleEvents (b :: bs) = [Ev.SK true, Ev.SK false, Ev.DO b] ++ sampleEvents bs := rfl

theorem bitsValue_cons (b : Bool) (bs : List Bool) :
    bitsValue (b :: bs) = (if b then 1 else 0) * 2 ^ bs.length + bitsValue bs := by
  induction bs using List.reverseRecOn with
  | nil => simp [bitsValue]
  | append_singleton bs c ih =>
    rw [← List.cons_append, bitsValue_snoc, bitsValue_snoc, ih, List.length_append]
    simp only [List.length_singleton, Nat.pow_succ]
    ring

theorem bitsValue_lt (bs : List Bool) : bitsValue bs < 2 ^ bs.length := by
  induction bs using List.reverseRecOn with
  | nil => simp [bitsValue]
  | append_singleton bs c ih =>
    rw [bitsValue_snoc, List.length_append, List.length_singleton, Nat.pow_succ]
    cases c <;> simp <;> omega

theorem mod_mul_add (x y z : Nat) : (x % 256 * y + z) % 256 = (x * y + z) % 256 := by
  rw [Nat.add_mod, Nat.mul_mod, Nat.mod_mod, ← Nat.mul_mod, ← Nat.add_mod]

/-- The loop of `ee_read_byte`: `n` pulses, each followed by one sample; the
result is the old value shifted left by `n` with the samples below it, as a byte. -/
theorem ee_read_byte_loop_spec (D : Device δ) (n r : Nat) (hr : r < 256) (w : World δ) :
    ∃ bs : List Bool, bs.length = n
      ∧ (ee_read_byte_loop D n r w).2.trace = w.trace ++ sampleEvents bs
      ∧ (ee_read_byte_loop D n r w).1 = (r * 2 ^ n + bitsValue bs) % 256
      ∧ (ee_read_byte_loop D n r w).2.pins.cs = w.pins.cs
      ∧ (n ≠ 0 → (ee_read_byte_loop D n r w).2.pins.sk = false)
      ∧ (n = 0 → (ee_read_byte_loop D n r w).2.pins.sk = w.pins.sk) := by
  induction n generalizing r w with
  | zero =>
    exact ⟨[], rfl, by simp [ee_read_byte_loop, sampleEvents],
      by simp [ee_read_byte_loop, bitsValue, Nat.mod_eq_of_lt hr], rfl, by simp, fun _ => rfl⟩
  | succ n ih =>
    have hsh := shift_or_one ⟨r, hr⟩
    simp only at hsh
    rw [ee_read_byte_loop]
    cases hb : (readDO D (ee_clock D w)).1
    · simp only [Bool.false_eq_true, if_false]
      obtain ⟨bs, hl, ht, hv, hc, hs, hs0⟩ := ih ((r <<< 1) % 256) (Nat.mod_lt _ (by norm_num))
        (readDO D (ee_clock D w)).2
      refine ⟨false :: bs, by simp [hl], ?_, ?_, ?_, fun _ => ?_, by simp⟩
      · rw [ht, readDO_trace, ee_clock_trace, hb, sampleEvents_cons]; simp
      · rw [hv, hsh.2, bitsValue_cons, hl]
        simp only [Bool.false_eq_true, if_false, Nat.zero_mul, Nat.zero_add, Nat.pow_succ]
        rw [mod_mul_add]
        congr 1; ring
      · rw [hc]; rfl
      · by_cases hn : n = 0
        · rw [hs0 hn]; rfl
        · exact hs hn
    · simp only [if_true]
      have hlt : (2 * r) % 256 + 1 < 256 := by omega
      obtain ⟨bs, hl, ht, hv, hc, hs, hs0⟩ := ih ((r <<< 1) % 256 ||| 1) (by rw [hsh.1]; exact hlt)
        (readDO D (ee_clock D w)).2
      refine ⟨true :: bs, by simp [hl], ?_, ?_, ?_, fun _ => ?_, by simp⟩
      · rw [ht, readDO_trace, ee_clock_trace, hb, sampleEvents_cons]; simp
      · rw [hv, hsh.1, bitsValue_cons, hl]
        simp only [if_true, Nat.one_mul, Nat.pow_succ]
        have e1 : ((2 * r) % 256 + 1) * 2 ^ n + bitsValue bs
            = (2 * r) % 256 * 2 ^ n + (2 ^ n + bitsValue bs) := by ring
        have e2 : r * (2 ^ n * 2) + (2 ^ n + bitsValue bs)
            = 2 * r * 2 ^ n + (2 ^ n + bitsValue bs) := by ring
        rw [e1, e2, mod_mul_add]
      · rw [hc]; rfl
      · by_cases hn : n = 0
        · rw [hs0 hn]; rfl
        · exact hs hn

theorem ee_read_byte_spec (D : Device δ) (a : Nat) (ha : a < 256) (w : World δ) :
    ∃ bs : List Bool, bs.length = 8
      ∧ (ee_read_byte D a w).2.trace = w.trace ++ readEvents a bs
      ∧ (ee_read_byte D a w).1 = bitsValue bs
      ∧ (ee_read_byte D a w).2.pins.sk = false := by
  have h1 : (0x600 ||| a) < 65536 :=
    Nat.or_lt_two_pow (n := 16) (by norm_num) (by omega)
  obtain ⟨bs, hl, ht, hv, _, hs, _⟩ := ee_read_byte_loop_spec D 8 0 (by norm_num)
    (ee_send_bits D (0x600 ||| a) 9 (setCS D true w))
  refine ⟨bs, hl, ?_, ?_, ?_⟩
  · unfold ee_read_byte
    simp only
    rw [setCS_trace, ht, ee_send_bits_frame D _ _ h1, setCS_trace]
    simp [readEvents]
  · unfold ee_read_byte
    simp only
    rw [hv]
    have hlt := bitsValue_lt bs
    rw [hl] at hlt
    simp only [Nat.zero_mul, Nat.zero_add]
    exact Nat.mod_eq_of_lt (by omega)
  · unfold ee_read_byte
    simp only
    exact hs (by norm_num)

theorem doReads_sampleEvents (bs : List Bool) : doReads (sampleEvents bs) = bs := by
  induction bs with
  | nil => rfl
  | cons b bs ih => rw [sampleEvents_cons, doReads_append, ih]; rfl

theorem diWrites_sampleEvents (bs : List Bool) : diWrites (sampleEvents bs) = [] := by
  induction bs with
  | nil => rfl
  | cons b bs ih => rw [sampleEvents_cons, diWrites_append, ih]; rfl

theorem clockPulses_sampleEvents (bs : List Bool) :
    clockPulses (sampleEvents bs) = bs.length := by
  induction bs with
  | nil => rfl
  | cons b bs ih =>
    rw [sampleEvents_cons, clockPulses_append, ih]
    simp [clockPulses, List.count_cons]
    omega

theorem doReads_readEvents (a : Nat) (bs : List Bool) : doReads (readEvents a bs) = bs := by
  simp [readEvents, doReads, doReads_append, doReads_frameEvents, doReads_sampleEvents]

theorem clockPulses_readEvents (a : Nat) (bs : List Bool) :
    clockPulses (readEvents a bs) = 9 + bs.length := by
  rw [readEvents, List.cons_append, List.cons_append]
  rw [show (Ev.CS true :: (frameEvents (0x600 ||| a) 9 ++ sampleEvents bs ++ [Ev.CS false]))
      = [Ev.CS true] ++ (frameEvents (0x600 ||| a) 9 ++ sampleEvents bs ++ [Ev.CS false])
      from rfl]
  rw [clockPulses_append, clockPulses_append, clockPulses_append, clockPulses_frameEvents,
    clockPulses_sampleEvents]
  simp [clockPulses]

theorem clockPulses_pollEvents (k : Nat) : clockPulses (pollEvents k) = 0 := by
  simp [pollEvents, clockPulses, List.count_cons, List.count_append, List.count_replicate]

theorem diWrites_pollEvents (k : Nat) : diWrites (pollEvents k) = [] := by
  simp [pollEvents, diWrites, diWrites_append, diWrites_replicate_DO]

theorem clockPulses_ewenEvents : clockPulses ewenEvents = 9 := by
  rw [ewenEvents, show (Ev.CS true :: frameEvents 0x980 9 ++ [Ev.CS false])
      = [Ev.CS true] ++ (frameEvents 0x980 9 ++ [Ev.CS false]) from rfl,
    clockPulses_append, clockPulses_append, clockPulses_frameEvents]
  simp [clockPulses]

theorem clockPulses_ewdsEvents : clockPulses ewdsEvents = 9 := by
  rw [ewdsEvents, show (Ev.CS true :: frameEvents 0x000 9 ++ [Ev.CS false])
      = [Ev.CS true] ++ (frameEvents 0x000 9 ++ [Ev.CS false]) from rfl,
    clockPulses_append, clockPulses_append, clockPulses_frameEvents]
  simp [clockPulses]

theorem clockPulses_writeEvents (a d : Nat) : clockPulses (writeEvents a d) = 17 := by
  rw [writeEvents, show (Ev.CS true :: frameEvents (0x500 ||| a) 9 ++ frameEvents d 8
        ++ [Ev.CS false])
      = [Ev.CS true] ++ (frameEvents (0x500 ||| a) 9 ++ frameEvents d 8 ++ [Ev.CS false])
      from rfl,
    clockPulses_append, clockPulses_append, clockPulses_append, clockPulses_frameEvents,
    clockPulses_frameEvents]
  simp [clockPulses]

/-- The samples of a read against the counting mock are the levels at the next
eight counts. -/
theorem oracle_read_loop (level : Nat → Bool) (n r : Nat) (w : World Nat) :
    doReads (ee_read_byte_loop (oracle level) n r w).2.trace
      = doReads w.trace ++ (List.range n).map (fun i => level (w.dev + i)) := by
  induction n generalizing r w with
  | zero => simp [ee_read_byte_loop]
  | succ n ih =>
    rw [ee_read_byte_loop, ih, readDO_trace, ee_clock_trace, doReads_append, doReads_append,
      List.range_succ_eq_map, List.map_cons, List.map_map]
    have hd : (readDO (oracle level) (ee_clock (oracle level) w)).2.dev = w.dev + 1 := rfl
    have hb : (readDO (oracle level) (ee_clock (oracle level) w)).1 = level w.dev := rfl
    rw [hd, hb]
    simp only [doReads, List.append_nil, List.append_assoc, List.singleton_append,
      Nat.add_zero, List.nil_append]
    congr 2
    apply List.map_congr_left
    intro i _
    simp only [Function.comp, Nat.succ_eq_add_one]
    congr 1
    omega

theorem oracle_read_samples (level : Nat → Bool) (a : Nat) (ha : a < 256) (pins : Pins)
    (k : Nat) (tr : List Ev) :
    (ee_read_byte (oracle level) a (World.mk pins k tr)).1
      = bitsValue ((List.range 8).map (fun i => level (k + i))) := by
  obtain ⟨bs, _, ht, hv, _⟩ := ee_read_byte_spec (oracle level) a ha (World.mk pins k tr)
  have h1 : doReads (ee_read_byte (oracle level) a (World.mk pins k tr)).2.trace
      = doReads tr ++ bs := by
    rw [ht, doReads_append, doReads_readEvents]
  have h2 : doReads (ee_read_byte (oracle level) a (World.mk pins k tr)).2.trace
      = doReads tr ++ (List.range 8).map (fun i => level (k + i)) := by
    unfold ee_read_byte
    simp only
    rw [setCS_trace, doReads_append, oracle_read_loop, ee_send_bits_trace, setCS_trace,
      doReads_append, doReads_append, doReads_frameEvents, oracle_send_bits_dev]
    simp only [doReads, setCS, List.append_nil, List.append_assoc, List.nil_append]
    rfl
  rw [hv, List.append_cancel_left (h1.symm.trans h2)]

/-! ## Data-in against the clock -/

theorem edgeScan_append (s t : List Ev) (sk pend : Bool) :
    edgeScan sk pend (s ++ t) = (edgeScan sk pend s).bind (fun p => edgeScan p.1 p.2 t) := by
  induction s generalizing sk pend with
  | nil => rfl
  | cons e s ih =>
    cases e with
    | DI b =>
      simp only [List.cons_append, edgeScan]
      split
      · rfl
      · exact ih _ _
    | SK b => cases b <;> simp only [List.cons_append, edgeScan] <;> exact ih _ _
    | CS b => simp only [List.cons_append, edgeScan]; exact ih _ _
    | DO b => simp only [List.cons_append, edgeScan]; exact ih _ _

theorem edgeScan_frameEvents (v n : Nat) :
    edgeScan false false (frameEvents v n) = some (false, false) := by
  induction n with
  | zero => rfl
  | succ n ih =>
    rw [frameEvents_succ, edgeScan_append]
    simp only [bitEvents, edgeScan, Bool.or_self, Bool.false_eq_true, if_false,
      Option.some_bind]
    exact ih

theorem edgeScan_sampleEvents (bs : List Bool) :
    edgeScan false false (sampleEvents bs) = some (false, false) := by
  induction bs with
  | nil => rfl
  | cons b bs ih =>
    rw [sampleEvents_cons, edgeScan_append]
    simp only [edgeScan, Option.some_bind]
    exact ih

theorem edgeScan_ewenEvents : edgeScan false false ewenEvents = some (false, false) := by
  rw [ewenEvents, List.cons_append, edgeScan, edgeScan_append, edgeScan_frameEvents]
  rfl

theorem edgeScan_ewdsEvents : edgeScan false false ewdsEvents = some (false, false) := by
  rw [ewdsEvents, List.cons_append, edgeScan, edgeScan_append, edgeScan_frameEvents]
  rfl

theorem edgeScan_writeEvents (a d : Nat) :
    edgeScan false false (writeEvents a d) = some (false, false) := by
  rw [writeEvents, List.cons_append, List.cons_append, edgeScan, edgeScan_append,
    edgeScan_append, edgeScan_frameEvents]
  simp only [Option.some_bind]
  rw [edgeScan_frameEvents]
  rfl

theorem edgeScan_pollEvents (k : Nat) :
    edgeScan false false (pollEvents k) = some (false, false) := by
  have hrep : ∀ k, edgeScan false false (List.replicate k (Ev.DO false)) = some (false, false) := by
    intro k
    induction k with
    | zero => rfl
    | succ k ih => rw [List.replicate_succ, edgeScan]; exact ih
  rw [pollEvents, List.cons_append, edgeScan, edgeScan_append, hrep]
  rfl

theorem edgeScan_readEvents (a : Nat) (bs : List Bool) :
    edgeScan false false (readEvents a bs) = some (false, false) := by
  rw [readEvents, List.cons_append, List.cons_append, edgeScan, edgeScan_append,
    edgeScan_append, edgeScan_frameEvents]
  simp only [Option.some_bind]
  rw [edgeScan_sampleEvents]
  rfl

theorem added_eq (w w' : World δ) (evs : List Ev) (h : w'.trace = w.trace ++ evs) :
    added w w' = evs := by
  rw [added, h, List.drop_left]

theorem setCS_sk (D : Device δ) (b : Bool) (w : World δ) :
    (setCS D b w).pins.sk = w.pins.sk := rfl

theorem ee_send_bits_sk (D : Device δ) (v n : Nat) (w : World δ) (h : w.pins.sk = false) :
    (ee_send_bits D v n w).pins.sk = false := by
  induction n generalizing w with
  | zero => exact h
  | succ n ih => rw [ee_send_bits]; exact ih _ rfl

theorem ee_write_enable_sk (D : Device δ) (w : World δ) (h : w.pins.sk = false) :
    (ee_write_enable D w).pins.sk = false := by
  unfold ee_write_enable
  rw [setCS_sk]
  exact ee_send_bits_sk D 0x980 9 _ (by rw [setCS_sk]; exact h)

theorem ee_write_disable_sk (D : Device δ) (w : World δ) (h : w.pins.sk = false) :
    (ee_write_disable D w).pins.sk = false := by
  unfold ee_write_disable
  rw [setCS_sk]
  exact ee_send_bits_sk D 0x000 9 _ (by rw [setCS_sk]; exact h)

theorem prePoll_sk (D : Device δ) (a d : Nat) (w : World δ) (h : w.pins.sk = false) :
    (prePoll D a d w).pins.sk = false := by
  have h1 := ee_write_enable_sk D w h
  have h2 : (setCS D true (ee_write_enable D w)).pins.sk = false := by rw [setCS_sk]; exact h1
  have h3 := ee_send_bits_sk D (0x500 ||| a) 9 _ h2
  have h4 := ee_send_bits_sk D d 8 _ h3
  unfold prePoll
  simp only
  rw [setCS_sk, setCS_sk]
  exact h4

theorem ee_write_byte_sk (D : Device δ) (fuel a d : Nat) (w w' : World δ)
    (hsk : w.pins.sk = false) (h : ee_write_byte D fuel a d w = some w') :
    w'.pins.sk = false := by
  rw [ee_write_byte_eq] at h
  cases hp : ee_poll D fuel (prePoll D a d w) with
  | none => rw [hp] at h; exact absurd h (by simp)
  | some w7 =>
    rw [hp] at h
    simp only [Option.map_some', Option.some.injEq] at h
    obtain ⟨k, _, hpins, _⟩ := ee_poll_trace D _ _ _ hp
    rw [← h]
    apply ee_write_disable_sk
    rw [setCS_sk, hpins]
    exact prePoll_sk D a d w hsk

/-! ## Command values -/

theorem diWrites_bracket (f : List Ev) :
    diWrites ([] ++ (Ev.CS true :: f ++ [Ev.CS false])) = diWrites f := by
  show diWrites (f ++ [Ev.CS false]) = diWrites f
  rw [diWrites_append]
  simp [diWrites]

theorem enableCommand_eq (D : Device δ) (w : World δ) : enableCommand D w = 0x980 % 2 ^ 9 := by
  unfold enableCommand
  rw [ee_write_enable_trace, ewenEvents]
  rw [diWrites_bracket]
  exact bitsValue_frame _ _

theorem disableCommand_eq (D : Device δ) (w : World δ) :
    disableCommand D w = 0x000 % 2 ^ 9 := by
  unfold disableCommand
  rw [ee_write_disable_trace, ewdsEvents]
  rw [diWrites_bracket]
  exact bitsValue_frame _ _

theorem ee_write_start_trace (D : Device δ) (w : World δ) :
    (ee_write_start D w).trace
      = w.trace ++ (Ev.CS true :: frameEvents 0x300 3 ++ [Ev.CS false]) := by
  simp [ee_write_start, ee_send_bits_frame]

theorem startCommand_eq (D : Device δ) (w : World δ) : startCommand D w = 0x300 % 2 ^ 3 := by
  unfold startCommand
  rw [ee_write_start_trace]
  rw [diWrites_bracket]
  exact bitsValue_frame _ _

set_option maxRecDepth 100000 in
theorem read_header_bits : ∀ a : Fin 256,
    ((0x600 ||| a.val) % 2 ^ 9).testBit 7 = (Nat.testBit 0x600 7 || a.val.testBit 7)
    ∧ ((0x600 ||| a.val) % 2 ^ 9).testBit 6 = (Nat.testBit 0x600 6 || a.val.testBit 6)
    ∧ (64 ≤ a.val → (0x600 ||| a.val) % 2 ^ 9 ≠ (0x600 ||| a.val % 64) % 2 ^ 9) := by
  decide

set_option maxRecDepth 100000 in
theorem write_header_bits : ∀ a : Fin 256,
    ((0x500 ||| a.val) % 2 ^ 9).testBit 7 = (Nat.testBit 0x500 7 || a.val.testBit 7)
    ∧ ((0x500 ||| a.val) % 2 ^ 9).testBit 6 = (Nat.testBit 0x500 6 || a.val.testBit 6)
    ∧ (64 ≤ a.val → (0x500 ||| a.val) % 2 ^ 9 ≠ (0x500 ||| a.val % 64) % 2 ^ 9) := by
  decide

set_option maxRecDepth 100000 in
theorem write_header_add : ∀ a : Fin 64, 0x100 ||| a.val = 256 + a.val := by
  decide

/-! ## The claims on the data phase, the clock and the frames -/

/-- C11 (read assembly).  For every address, `ee_read_byte` appends to the
trace select asserted, the 9-bit command frame, then for each of eight levels
`bs` of data-out one clock pulse followed by one read of data-out, then select
deasserted; the levels read are `bs` and the byte returned is their value read
most-significant bit first.  Against the mock that shows any chosen levels the
byte is the value of the first eight levels, and the value of eight levels
`b7 .. b0` is the sum of `b_i * 2 ^ i`. -/
theorem read_assembly (D : Device δ) (address : Nat) (ha : address < 256) (w : World δ) :
    (∃ bs : List Bool, bs.length = 8
      ∧ (ee_read_byte D address w).2.trace = w.trace ++ readEvents address bs
      ∧ doReads (readEvents address bs) = bs
      ∧ clockPulses (sampleEvents bs) = 8
      ∧ (ee_read_byte D address w).1 = bitsValue bs)
    ∧ (∀ (level : Nat → Bool) (pins : Pins) (tr : List Ev),
        (ee_read_byte (oracle level) address (World.mk pins 0 tr)).1
          = bitsValue [level 0, level 1, level 2, level 3, level 4, level 5, level 6,
              level 7])
    ∧ (∀ b7 b6 b5 b4 b3 b2 b1 b0 : Bool,
        bitsValue [b7, b6, b5, b4, b3, b2, b1, b0]
          = 128 * b7.toNat + 64 * b6.toNat + 32 * b5.toNat + 16 * b4.toNat + 8 * b3.toNat
            + 4 * b2.toNat + 2 * b1.toNat + b0.toNat) := by
  refine ⟨?_, ?_, by decide⟩
  · obtain ⟨bs, hl, ht, hv, _⟩ := ee_read_byte_spec D address ha w
    exact ⟨bs, hl, ht, doReads_readEvents address bs,
      by rw [clockPulses_sampleEvents, hl], hv⟩
  · intro level pins tr
    rw [oracle_read_samples level address ha pins 0 tr]
    simp [List.range_succ]

/-- Witness of C11: a read of address `0x10` on the mock whose data-out
alternates high and low gives `0xAA`. -/
theorem read_assembly_witness :
    0x10 < 256
    ∧ (ee_read_byte (oracle (fun k => k % 2 == 0)) 0x10 (World.mk powerOn 0 [])).1 = 0xAA := by
  refine ⟨by decide, ?_⟩
  rw [(read_assembly (oracle (fun k => k % 2 == 0)) 0x10 (by decide)
    (World.mk powerOn 0 [])).2.1 (fun k => k % 2 == 0) powerOn []]
  decide

/-- C12 (data stable at the clock edge).  Started with the clock low, each of
`ee_send_bits`, `ee_read_byte`, `ee_write_enable`, `ee_write_disable` and, when
it returns, `ee_write_byte` appends a trace in which data-in is written only
while the clock is low, every bit written is followed by a rising edge of the
clock before the next write of data-in and before the return, and the clock is
low on return. -/
theorem data_stable_at_clock_edge (D : Device δ) (w : World δ) (hsk : w.pins.sk = false)
    (value width address data fuel : Nat) (hv : value < 65536) (ha : address < 256)
    (hd : data < 256) :
    (edgeScan w.pins.sk false (added w (ee_send_bits D value width w)) = some (false, false)
      ∧ (ee_send_bits D value width w).pins.sk = false)
    ∧ (edgeScan w.pins.sk false (added w (ee_read_byte D address w).2) = some (false, false)
      ∧ (ee_read_byte D address w).2.pins.sk = false)
    ∧ (edgeScan w.pins.sk false (added w (ee_write_enable D w)) = some (false, false)
      ∧ (ee_write_enable D w).pins.sk = false)
    ∧ (edgeScan w.pins.sk false (added w (ee_write_disable D w)) = some (false, false)
      ∧ (ee_write_disable D w).pins.sk = false)
    ∧ (∀ w', ee_write_byte D fuel address data w = some w' →
        edgeScan w.pins.sk false (added w w') = some (false, false)
        ∧ w'.pins.sk = false) := by
  rw [hsk]
  refine ⟨⟨?_, ee_send_bits_sk D value width w hsk⟩, ?_, ⟨?_, ee_write_enable_sk D w hsk⟩,
    ⟨?_, ee_write_disable_sk D w hsk⟩, ?_⟩
  · rw [added_eq _ _ _ (ee_send_bits_frame D value width hv w)]
    exact edgeScan_frameEvents value width
  · obtain ⟨bs, _, ht, _, hs⟩ := ee_read_byte_spec D address ha w
    rw [added_eq _ _ _ ht]
    exact ⟨edgeScan_readEvents address bs, hs⟩
  · rw [added_eq _ _ _ (ee_write_enable_trace D w)]
    exact edgeScan_ewenEvents
  · rw [added_eq _ _ _ (ee_write_disable_trace D w)]
    exact edgeScan_ewdsEvents
  · intro w' h
    obtain ⟨k, _, ht⟩ := ee_write_byte_trace D fuel address data ha hd w w' h
    have ht' : w'.trace
        = w.trace ++ (ewenEvents ++ (writeEvents address data ++ (pollEvents k ++ ewdsEvents))) := by
      rw [ht]; simp
    rw [added_eq _ _ _ ht', edgeScan_append, edgeScan_ewenEvents]
    simp only [Option.some_bind]
    rw [edgeScan_append, edgeScan_writeEvents]
    simp only [Option.some_bind]
    rw [edgeScan_append, edgeScan_pollEvents]
    simp only [Option.some_bind]
    exact ⟨edgeScan_ewdsEvents, ee_write_byte_sk D fuel address data w w' hsk h⟩

/-- Witness of C12: from power-on (clock low), the frame `0x610` of width 9,
and the write of `0xA5` to `0x10`, on the always-ready mock. -/
theorem data_stable_at_clock_edge_witness :
    powerOn.sk = false ∧ 0x610 < 65536 ∧ 0x10 < 256 ∧ 0xA5 < 256
    ∧ edgeScan false false
        (added (World.mk powerOn 0 []) (ee_send_bits alwaysReady 0x610 9 (World.mk powerOn 0 [])))
        = some (false, false)
    ∧ ∃ w', ee_write_byte alwaysReady 1 0x10 0xA5 (World.mk powerOn 0 []) = some w'
        ∧ edgeScan false false (added (World.mk powerOn 0 []) w') = some (false, false)
        ∧ w'.pins.sk = false :=
  ⟨rfl, by decide, by decide, by decide,
    (data_stable_at_clock_edge alwaysReady (World.mk powerOn 0 []) rfl 0x610 9 0x10 0xA5 1
      (by decide) (by decide) (by decide)).1.1,
    _, ee_write_byte_ready alwaysReady (fun _ => rfl) 0 0x10 0xA5 (World.mk powerOn 0 []),
    (data_stable_at_clock_edge alwaysReady (World.mk powerOn 0 []) rfl 0x610 9 0x10 0xA5 1
      (by decide) (by decide) (by decide)).2.2.2.2 _
      (ee_write_byte_ready alwaysReady (fun _ => rfl) 0 0x10 0xA5 (World.mk powerOn 0 []))⟩

/-- C13 (out-of-range addresses).  For every address in [64,255]
`ee_read_byte` and `ee_write_byte` put nine bits on data-in all the same, with
no check and no error result; bits 7 and 6 of the command value are the
header's bits 7 and 6 ORed with those of the address, and the value differs
from the one sent for the address modulo 64. -/
theorem out_of_range_addresses (D : Device δ) (address data : Nat) (h64 : 64 ≤ address)
    (ha : address < 256) (hd : data < 256) (w : World δ) :
    (diWrites (ee_read_byte D address { w with trace := [] }).2.trace).length = 9
    ∧ readCommand D address w = (0x600 ||| address) % 2 ^ 9
    ∧ (readCommand D address w).testBit 7 = (Nat.testBit 0x600 7 || address.testBit 7)
    ∧ (readCommand D address w).testBit 6 = (Nat.testBit 0x600 6 || address.testBit 6)
    ∧ readCommand D address w ≠ readCommand D (address % 64) w
    ∧ (diWrites (writeEvents address data)).length = 17
    ∧ writeCommand D address data w = (0x500 ||| address) % 2 ^ 9
    ∧ (writeCommand D address data w).testBit 7 = (Nat.testBit 0x500 7 || address.testBit 7)
    ∧ (writeCommand D address data w).testBit 6 = (Nat.testBit 0x500 6 || address.testBit 6)
    ∧ writeCommand D address data w ≠ writeCommand D (address % 64) data w := by
  have hm : address % 64 < 256 := by omega
  have hr := readCommand_eq D address ha w
  have hr' := readCommand_eq D (address % 64) hm w
  have hw := writeCommand_eq D address data ha hd w
  have hw' := writeCommand_eq D (address % 64) data hm hd w
  have h6 := read_header_bits ⟨address, ha⟩
  have h5 := write_header_bits ⟨address, ha⟩
  simp only at h6 h5
  refine ⟨?_, hr, ?_, ?_, ?_, ?_, hw, ?_, ?_, ?_⟩
  · rw [ee_read_byte_diWrites D address ha, diWrites_frameEvents]
    simp [diWrites]
  · rw [hr]; exact h6.1
  · rw [hr]; exact h6.2.1
  · rw [hr, hr']; exact h6.2.2 h64
  · have hsplit : diWrites (writeEvents address data)
        = diWrites (frameEvents (0x500 ||| address) 9) ++ diWrites (frameEvents data 8) := by
      simp [writeEvents, diWrites_append, diWrites]
    rw [hsplit, diWrites_frameEvents, diWrites_frameEvents]
    simp
  · rw [hw]; exact h5.1
  · rw [hw]; exact h5.2.1
  · rw [hw, hw']; exact h5.2.2 h64

/-- Witness of C13: address 0x50 (80), data `0xA5`, on the always-ready mock:
the read command value is 0x50, not the 0x10 sent for 80 modulo 64. -/
theorem out_of_range_addresses_witness :
    64 ≤ 0x50 ∧ 0x50 < 256 ∧ 0xA5 < 256
    ∧ readCommand alwaysReady 0x50 (World.mk powerOn 0 [])
        ≠ readCommand alwaysReady (0x50 % 64) (World.mk powerOn 0 []) :=
  ⟨by decide, by decide, by decide,
    (out_of_range_addresses alwaysReady 0x50 0xA5 (by decide) (by decide) (by decide)
      (World.mk powerOn 0 [])).2.2.2.2.1⟩

/-- C14 (header bits outside the window).  Whatever `ee_send_bits` is given,
the value of the bits it puts on data-in is the header modulo `2 ^ width`.
Each of the four headers has a set bit at a position not below its width
(`0x600`: bit 9, `0x500`: bit 10, `0x980`: bit 11, width 9; `0x300`: bit 8,
width 3), so the value sent by `ee_read_byte` and `ee_write_byte` at address 0,
by `ee_write_enable` and by `ee_write_start` is the header modulo `2 ^ width`
and not the header. -/
theorem headers_outside_window (D : Device δ) (w : World δ) :
    (∀ header width : Nat, header < 65536 →
      bitsValue (diWrites (added w (ee_send_bits D header width w))) = header % 2 ^ width)
    ∧ (Nat.testBit 0x600 9 = true ∧ readCommand D 0 w = 0x600 % 2 ^ 9
        ∧ readCommand D 0 w ≠ 0x600)
    ∧ (Nat.testBit 0x500 10 = true ∧ writeCommand D 0 0 w = 0x500 % 2 ^ 9
        ∧ writeCommand D 0 0 w ≠ 0x500)
    ∧ (Nat.testBit 0x980 11 = true ∧ enableCommand D w = 0x980 % 2 ^ 9
        ∧ enableCommand D w ≠ 0x980)
    ∧ (Nat.testBit 0x300 8 = true ∧ startCommand D w = 0x300 % 2 ^ 3
        ∧ startCommand D w ≠ 0x300) := by
  have hr := readCommand_eq D 0 (by norm_num) w
  have hw := writeCommand_eq D 0 0 (by norm_num) (by norm_num) w
  have he := enableCommand_eq D w
  have hs := startCommand_eq D w
  refine ⟨?_, ⟨by decide, hr, ?_⟩, ⟨by decide, hw, ?_⟩, ⟨by decide, he, ?_⟩,
    ⟨by decide, hs, ?_⟩⟩
  · intro header width hh
    rw [added_eq _ _ _ (ee_send_bits_frame D header width hh w)]
    exact bitsValue_frame header width
  · rw [hr]; decide
  · rw [hw]; decide
  · rw [he]; decide
  · rw [hs]; decide

/-- C15 (pulse counts).  When `ee_write_byte` returns, the trace it appended is
the write-enable, the write transaction, the poll and the write-disable; the
poll span holds no clock edge and no write of data-in, and the whole call has
35 clock pulses whatever the number of poll samples.  `ee_read_byte` has 17. -/
theorem clock_pulse_counts (D : Device δ) (fuel address data : Nat) (ha : address < 256)
    (hd : data < 256) (w w' : World δ) (h : ee_write_byte D fuel address data w = some w') :
    clockPulses (added w w') = 35
    ∧ (∃ k, added w w' = ewenEvents ++ writeEvents address data ++ pollEvents k ++ ewdsEvents
        ∧ clockPulses (pollEvents k) = 0 ∧ diWrites (pollEvents k) = []
        ∧ List.count (Ev.SK false) (pollEvents k) = 0)
    ∧ clockPulses (added w (ee_read_byte D address w).2) = 17 := by
  obtain ⟨k, _, ht⟩ := ee_write_byte_trace D fuel address data ha hd w w' h
  have ht' : w'.trace
      = w.trace ++ (ewenEvents ++ writeEvents address data ++ pollEvents k ++ ewdsEvents) := by
    rw [ht]; simp
  have hadd := added_eq _ _ _ ht'
  refine ⟨?_, ⟨k, hadd, clockPulses_pollEvents k, diWrites_pollEvents k, ?_⟩, ?_⟩
  · rw [hadd, clockPulses_append, clockPulses_append, clockPulses_append,
      clockPulses_ewenEvents, clockPulses_writeEvents, clockPulses_pollEvents,
      clockPulses_ewdsEvents]
  · simp [pollEvents, List.count_cons, List.count_append, List.count_replicate]
  · obtain ⟨bs, hl, htr, _⟩ := ee_read_byte_spec D address ha w
    rw [added_eq _ _ _ htr, clockPulses_readEvents, hl]

/-- Witness of C15: the write of `0xA5` to `0x10` on the always-ready mock has
35 clock pulses. -/
theorem clock_pulse_counts_witness :
    0x10 < 256 ∧ 0xA5 < 256
    ∧ ∃ w', ee_write_byte alwaysReady 1 0x10 0xA5 (World.mk powerOn 0 []) = some w'
        ∧ clockPulses (added (World.mk powerOn 0 []) w') = 35 :=
  ⟨by decide, by decide, _,
    ee_write_byte_ready alwaysReady (fun _ => rfl) 0 0x10 0xA5 (World.mk powerOn 0 []),
    (clock_pulse_counts alwaysReady 1 0x10 0xA5 (by decide) (by decide)
      (World.mk powerOn 0 []) _
      (ee_write_byte_ready alwaysReady (fun _ => rfl) 0 0x10 0xA5 (World.mk powerOn 0 []))).1⟩

/-- C16 (frames distinguishable), evaluated on the code: `ee_read_byte(0)` and
`ee_write_disable()` put the same nine bits, all zero, on data-in, so the read
frame and the write-disable frame are not always different; a read frame
equals the write-disable frame exactly at address 0.  The other pairs differ
for all addresses in [0,63], and the read and write frames are injective in
the address. -/
theorem read_zero_frame_is_ewds_frame (D : Device δ) (w : World δ) (a b : Fin 64)
    (d e : Fin 256) :
    diWrites (ee_read_byte D 0 { w with trace := [] }).2.trace
      = diWrites (ee_write_disable D { w with trace := [] }).trace
    ∧ readCommand D 0 w = disableCommand D w
    ∧ (readCommand D a.val w = disableCommand D w ↔ a.val = 0)
    ∧ readCommand D a.val w ≠ writeCommand D b.val d.val w
    ∧ readCommand D a.val w ≠ enableCommand D w
    ∧ writeCommand D b.val d.val w ≠ enableCommand D w
    ∧ writeCommand D b.val d.val w ≠ disableCommand D w
    ∧ enableCommand D w ≠ disableCommand D w
    ∧ (readCommand D a.val w = readCommand D b.val w → a = b)
    ∧ (writeCommand D a.val d.val w = writeCommand D b.val e.val w → a = b) := by
  have hra := readCommand_eq D a.val (by omega) w
  have hrb := readCommand_eq D b.val (by omega) w
  have hr0 := readCommand_eq D 0 (by norm_num) w
  have hwa := writeCommand_eq D a.val d.val (by omega) d.isLt w
  have hwb := writeCommand_eq D b.val d.val (by omega) d.isLt w
  have hwb' := writeCommand_eq D b.val e.val (by omega) e.isLt w
  have he : enableCommand D w = 384 := by rw [enableCommand_eq]; rfl
  have hd : disableCommand D w = 0 := by rw [disableCommand_eq]; rfl
  have h6a := (read_header_mod a).1
  have h6b := (read_header_mod b).1
  have h5a := (write_header_mod a).1
  have h5b := (write_header_mod b).1
  have h5a' := write_header_add a
  have h5b' := write_header_add b
  have hla := a.isLt
  have hlb := b.isLt
  have hr0' : (0x600 ||| 0) % 2 ^ 9 = 0 := by decide
  rw [hra, hrb, hwa, hwb, hwb', he, hd, hr0, hr0', h6a, h6b, h5a, h5b, h5a', h5b']
  refine ⟨?_, by decide, Iff.rfl, by omega, by omega, by omega, by omega, by decide,
    fun h => Fin.ext h, fun h => Fin.ext (by omega)⟩
  rw [ee_read_byte_diWrites D 0 (by norm_num), ee_write_disable_trace]
  show diWrites [] ++ diWrites (frameEvents (0x600 ||| 0) 9) = diWrites ([] ++ ewdsEvents)
  rw [ewdsEvents, diWrites_bracket]
  decide

/-! ## The console firmware: what the commands leave alone -/

theorem sameBuffer_refl (s : Firmware) : sameBuffer s s := ⟨rfl, rfl, rfl, rfl, rfl⟩

theorem sameBuffer_trans {s t u : Firmware} (h1 : sameBuffer s t) (h2 : sameBuffer t u) :
    sameBuffer s u :=
  ⟨h2.1.trans h1.1, h2.2.1.trans h1.2.1, h2.2.2.1.trans h1.2.2.1,
    h2.2.2.2.1.trans h1.2.2.2.1, h2.2.2.2.2.trans h1.2.2.2.2⟩

theorem uart_puts_same (str : List Nat) (s : Firmware) : sameBuffer s (uart_puts str s) :=
  ⟨rfl, rfl, rfl, rfl, rfl⟩

theorem uart_putc_same (c : Nat) (s : Firmware) : sameBuffer s (uart_putc c s) :=
  ⟨rfl, rfl, rfl, rfl, rfl⟩

theorem field_same (s t : Firmware) (h1 : t.rx_buf = s.rx_buf) (h2 : t.rx_pos = s.rx_pos)
    (h3 : t.stores = s.stores) (h4 : t.handed = s.handed) (h5 : t.pattern = s.pattern) :
    sameBuffer s t := ⟨h1, h2, h3, h4, h5⟩

theorem do_help_same (s : Firmware) : sameBuffer s (do_help s) := by
  unfold do_help
  refine sameBuffer_trans ?_ (uart_puts_same _ _)
  refine sameBuffer_trans ?_ (uart_puts_same _ _)
  refine sameBuffer_trans ?_ (uart_puts_same _ _)
  refine sameBuffer_trans ?_ (uart_puts_same _ _)
  refine sameBuffer_trans ?_ (uart_puts_same _ _)
  refine sameBuffer_trans ?_ (uart_puts_same _ _)
  exact uart_puts_same _ s

theorem apply_set_same (v : Nat) (s : Firmware) : sameBuffer s (apply_set v s) := by
  unfold apply_set
  refine sameBuffer_trans ?_ (uart_puts_same _ _)
  refine sameBuffer_trans ?_ (uart_putc_same _ _)
  refine sameBuffer_trans ?_ (uart_putc_same _ _)
  refine sameBuffer_trans ?_ (uart_puts_same _ _)
  exact field_same _ _ rfl rfl rfl rfl rfl

theorem process_set_same (s : Firmware) : sameBuffer s (process_set s) := by
  unfold process_set
  simp only
  split
  · exact apply_set_same _ s
  · split
    · exact apply_set_same _ s
    · split
      · exact apply_set_same _ s
      · exact uart_puts_same _ s

theorem process_speed_same (s : Firmware) : sameBuffer s (process_speed s) := by
  unfold process_speed
  simp only
  split
  · refine sameBuffer_trans ?_ (uart_puts_same _ _)
    refine sameBuffer_trans ?_ (uart_puts_same _ _)
    refine sameBuffer_trans ?_ (uart_puts_same _ _)
    exact field_same _ _ rfl rfl rfl rfl rfl
  · exact uart_puts_same _ s

theorem dispatch_same (s : Firmware) : sameBuffer s (dispatch s) := by
  unfold dispatch
  split
  · exact sameBuffer_trans (field_same _ _ rfl rfl rfl rfl rfl) (uart_puts_same _ _)
  · split
    · exact sameBuffer_trans (field_same _ _ rfl rfl rfl rfl rfl) (uart_puts_same _ _)
    · split
      · exact sameBuffer_trans (field_same _ _ rfl rfl rfl rfl rfl) (uart_puts_same _ _)
      · split
        · exact sameBuffer_trans (field_same _ _ rfl rfl rfl rfl rfl) (uart_puts_same _ _)
        · split
          · exact do_help_same s
          · split
            · exact process_speed_same s
            · split
              · exact process_set_same s
              · refine sameBuffer_trans ?_ (uart_puts_same _ _)
                refine sameBuffer_trans ?_ (uart_puts_same _ _)
                exact uart_puts_same _ s

theorem process_message_fields (s : Firmware) :
    (process_message s).rx_buf = s.rx_buf.set 0 0
    ∧ (process_message s).rx_pos = 0
    ∧ (process_message s).stores = s.stores ++ [0]
    ∧ (process_message s).handed = s.handed ++ [s.rx_buf]
    ∧ (process_message s).pattern = s.pattern := by
  obtain ⟨h1, _, h3, h4, h5⟩ := dispatch_same { s with handed := s.handed ++ [s.rx_buf] }
  refine ⟨?_, rfl, ?_, ?_, ?_⟩
  · show (dispatch { s with handed := s.handed ++ [s.rx_buf] }).rx_buf.set 0 0 = _
    rw [h1]
  · show (dispatch { s with handed := s.handed ++ [s.rx_buf] }).stores ++ [0] = _
    rw [h3]
  · show (dispatch { s with handed := s.handed ++ [s.rx_buf] }).handed = _
    rw [h4]
  · show (dispatch { s with handed := s.handed ++ [s.rx_buf] }).pattern = _
    rw [h5]

theorem bufferSafe_boot : bufferSafe boot := by
  refine ⟨by decide, by decide, ?_, ?_⟩ <;> simp [boot]

theorem uart_task_safe (ms : Nat) (rx : Option Nat) (s : Firmware) (h : bufferSafe s) :
    bufferSafe (uart_task ms rx s) := by
  obtain ⟨hp, hl, hs, hh⟩ := h
  cases rx with
  | none =>
    unfold uart_task
    simp only
    split
    · exact ⟨hp, hl, hs, hh⟩
    · exact ⟨hp, hl, hs, hh⟩
  | some c =>
    unfold uart_task
    simp only
    have hg : ∀ t : Firmware, sameBuffer s t → sameBuffer s
        (if t.greeted = 0 then
          { uart_puts (bytes "\r\nConnection detected.\r\n") t with greeted := 1 } else t) := by
      intro t ht
      split
      · exact sameBuffer_trans ht ⟨rfl, rfl, rfl, rfl, rfl⟩
      · exact ht
    obtain ⟨g1, g2, g3, g4, _⟩ := hg { s with last_rx_time := ms } ⟨rfl, rfl, rfl, rfl, rfl⟩
    generalize (if ({ s with last_rx_time := ms } : Firmware).greeted = 0 then
      { uart_puts (bytes "\r\nConnection detected.\r\n") { s with last_rx_time := ms } with
        greeted := 1 } else { s with last_rx_time := ms }) = s2 at g1 g2 g3 g4 ⊢
    split
    · -- end of line
      split
      · next hpos =>
        obtain ⟨m1, _, m3, m4, _⟩ := process_message_fields
          (store (uart_puts (bytes "\r\n") s2).rx_pos 0 (uart_puts (bytes "\r\n") s2))
        refine ⟨Nat.zero_le _, ?_, ?_, ?_⟩
        · show (process_message _).rx_buf.length = 32
          rw [m1]; simp [store, uart_puts, g1, hl]
        · show ∀ i ∈ (process_message _).stores, i ≤ 31
          rw [m3]
          intro i hi
          simp only [store, uart_puts, g3, g2, List.mem_append, List.mem_singleton] at hi
          rcases hi with (hi | hi) | hi
          · exact hs i hi
          · omega
          · omega
        · show ∀ b ∈ (process_message _).handed, _
          rw [m4]
          intro b hb
          simp only [store, uart_puts, g4, g2, g1, List.mem_append, List.mem_singleton] at hb
          rcases hb with hb | hb
          · exact hh b hb
          · subst hb
            refine ⟨by simp [hl], s.rx_pos, hp, ?_⟩
            rw [List.getElem?_set_self]
            simp [hl]; omega
      · exact ⟨Nat.zero_le _, by show s2.rx_buf.length = 32; rw [g1]; exact hl,
          by show ∀ i ∈ s2.stores, i ≤ 31; rw [g3]; exact hs,
          by show ∀ b ∈ s2.handed, _; rw [g4]; exact hh⟩
    · split
      · -- backspace
        split
        · refine ⟨?_, ?_, ?_, ?_⟩
          · show s2.rx_pos - 1 ≤ 31
            rw [g2]; omega
          · show s2.rx_buf.length = 32
            rw [g1]; exact hl
          · show ∀ i ∈ s2.stores, i ≤ 31
            rw [g3]; exact hs
          · show ∀ b ∈ s2.handed, _
            rw [g4]; exact hh
        · exact ⟨by rw [g2]; exact hp, by rw [g1]; exact hl, by rw [g3]; exact hs,
            by rw [g4]; exact hh⟩
      · split
        · next hlt =>
          simp only [RX_BUF_SIZE] at hlt
          rw [g2] at hlt
          refine ⟨?_, ?_, ?_, ?_⟩
          · show s2.rx_pos + 1 ≤ 31
            rw [g2]; omega
          · show (s2.rx_buf.set s2.rx_pos c).length = 32
            rw [List.length_set, g1]; exact hl
          · show ∀ i ∈ s2.stores ++ [s2.rx_pos], i ≤ 31
            intro i hi
            simp only [g3, g2, List.mem_append, List.mem_singleton] at hi
            rcases hi with hi | hi
            · exact hs i hi
            · omega
          · show ∀ b ∈ s2.handed, _
            rw [g4]; exact hh
        · exact ⟨by rw [g2]; exact hp, by rw [g1]; exact hl, by rw [g3]; exact hs,
            by rw [g4]; exact hh⟩

theorem run_uart_safe (inputs : List (Nat × Option Nat)) (s : Firmware) (h : bufferSafe s) :
    bufferSafe (run_uart inputs s) := by
  induction inputs generalizing s with
  | nil => exact h
  | cons x t ih => exact ih _ (uart_task_safe x.1 x.2 s h)

theorem chaser_update_safe (ms : Nat) (s : Firmware) (h : bufferSafe s) :
    bufferSafe (chaser_update ms s) := by
  unfold chaser_update
  simp only
  split
  · split
    · exact h
    · exact h
  · exact h

theorem run_main_safe (inputs : List (Nat × Option Nat)) (s : Firmware) (h : bufferSafe s) :
    bufferSafe (run_main inputs s) := by
  induction inputs generalizing s with
  | nil => exact h
  | cons x t ih => exact ih _ (uart_task_safe x.1 x.2 _ (chaser_update_safe x.1 s h))

/-! ## The chaser -/

theorem uart_task_pattern (ms : Nat) (rx : Option Nat) (s : Firmware) :
    (uart_task ms rx s).pattern = s.pattern := by
  cases rx with
  | none =>
    unfold uart_task
    simp only
    split <;> rfl
  | some c =>
    unfold uart_task
    simp only
    have hg : (if ({ s with last_rx_time := ms } : Firmware).greeted = 0 then
        { uart_puts (bytes "\r\nConnection detected.\r\n") { s with last_rx_time := ms } with
          greeted := 1 } else { s with last_rx_time := ms }).pattern = s.pattern := by
      split <;> rfl
    generalize (if ({ s with last_rx_time := ms } : Firmware).greeted = 0 then
      { uart_puts (bytes "\r\nConnection detected.\r\n") { s with last_rx_time := ms } with
        greeted := 1 } else { s with last_rx_time := ms }) = s2 at hg ⊢
    split
    · split
      · show (process_message _).pattern = _
        rw [(process_message_fields _).2.2.2.2]
        exact hg
      · exact hg
    · split
      · split
        · exact hg
        · exact hg
      · split
        · exact hg
        · exact hg

theorem chaser_update_dark (ms : Nat) (s : Firmware) (h : s.pattern = 0) :
    (chaser_update ms s).pattern = 0 := by
  unfold chaser_update
  simp only
  split
  · split
    · show (s.pattern <<< 1) % 256 = 0
      rw [h]; rfl
    · show s.pattern >>> 1 = 0
      rw [h]; rfl
  · exact h

theorem run_main_dark (inputs : List (Nat × Option Nat)) (s : Firmware) (h : s.pattern = 0) :
    (run_main inputs s).pattern = 0 := by
  induction inputs generalizing s with
  | nil => exact h
  | cons x t ih =>
    apply ih
    show (uart_task x.1 x.2 (chaser_update x.1 s)).pattern = 0
    rw [uart_task_pattern]
    exact chaser_update_dark x.1 s h

set_option maxRecDepth 100000 in
theorem darkRun_pattern :
    (run_main (darkRun.take 7) (main_prelude boot)).pattern = 0x80
    ∧ (run_main (darkRun.take 7) (main_prelude boot)).direction = 1
    ∧ (run_main (darkRun.take 12) (main_prelude boot)).pattern = 0x80
    ∧ (run_main (darkRun.take 12) (main_prelude boot)).direction = 0
    ∧ (run_main darkRun (main_prelude boot)).pattern = 0
    ∧ (run_main darkRun (main_prelude boot)).run_chaser = 1 := by
  decide

/-! ## The numbers of the console commands -/

theorem takeWhile_nul (line rest : List Nat) (h : ∀ c ∈ line, c ≠ 0) :
    (line ++ 0 :: rest).takeWhile (fun c => c != 0) = line := by
  induction line with
  | nil => simp
  | cons c line ih =>
    have hc : c ≠ 0 := h c (List.mem_cons_self _ _)
    have ht : ∀ x ∈ line, x ≠ 0 := fun x hx => h x (List.mem_cons_of_mem _ hx)
    simp [List.takeWhile_cons, hc, ih ht]

theorem parse_number_loop_nul (arg rest : List Nat) (v : Int) :
    parse_number_loop (arg ++ 0 :: rest) v = parse_number_loop arg v := by
  induction arg generalizing v with
  | nil => simp [parse_number_loop]
  | cons c arg ih =>
    simp only [List.cons_append, parse_number_loop]
    split
    · exact ih _
    · rfl

theorem wrap32_def (x : Int) : wrap32 x = (x + 2147483648) % 4294967296 - 2147483648 := rfl

theorem wrap32_step (n c : Nat) (hc : 48 ≤ c) :
    wrap32 (wrap32 n * 10 + ((c : Int) - 48)) = wrap32 ((n * 10 + (c - 48) : Nat) : Int) := by
  rw [wrap32_def, wrap32_def, wrap32_def]
  omega

/-- The function `parse_number` gives the decimal value of the leading digits
reduced to a 32-bit signed `long`. -/
theorem parse_number_loop_wrap (s : List Nat) (n : Nat) :
    parse_number_loop s (wrap32 n) = wrap32 (decimalFrom s n) := by
  induction s generalizing n with
  | nil => rfl
  | cons c s ih =>
    simp only [parse_number_loop, decimalFrom]
    split
    · next hd =>
      have h48 : 48 ≤ c := by simpa using hd.1
      have hstep := wrap32_step n c h48
      simp only [Char.reduceToNat, Nat.cast_ofNat] at hstep ⊢
      rw [hstep]
      exact ih _
    · rfl

theorem wrap32_small (n : Nat) (h : n < 2147483648) : wrap32 n = n := by
  rw [wrap32_def]
  omega

theorem parse_number_wrap (s : List Nat) : parse_number s = wrap32 (decimalValue s) := by
  have h := parse_number_loop_wrap s 0
  rw [wrap32_small 0 (by norm_num)] at h
  exact h

/-- The chain of comparisons takes the `speed` branch for a line that starts
with `speed `. -/
theorem dispatch_speed (s : Firmware) (t : List Nat)
    (h : s.rx_buf = bytes "speed " ++ t) : dispatch s = process_speed s := by
  unfold dispatch
  rw [h]
  simp [bytes, strcmp_is0, strncmp_is0]

/-- The chain of comparisons takes the `set` branch for a line that starts
with `set `. -/
theorem dispatch_set (s : Firmware) (t : List Nat)
    (h : s.rx_buf = bytes "set " ++ t) : dispatch s = process_set s := by
  unfold dispatch
  rw [h]
  simp [bytes, strcmp_is0, strncmp_is0]

theorem hex_digit_of_decimal (c : Nat) (h : '0'.toNat ≤ c ∧ c ≤ '9'.toNat) :
    0 ≤ hex_digit c := by
  unfold hex_digit
  rw [if_pos h]
  have h48 : 48 ≤ c := by simpa using h.1
  simp
  omega

/-- In the `set` branch an argument that starts with a decimal digit is read
by `parse_hex`. -/
theorem process_set_decimal (s : Firmware)
    (h : '0'.toNat ≤ (s.rx_buf.drop 4).headD 0 ∧ (s.rx_buf.drop 4).headD 0 ≤ '9'.toNat) :
    process_set s = apply_set (parse_hex (s.rx_buf.drop 4) % 256) s := by
  unfold process_set
  simp only
  have hb : ¬ ((s.rx_buf.drop 4).headD 0 = 'b'.toNat ∨ (s.rx_buf.drop 4).headD 0 = 'B'.toNat) := by
    simp at h ⊢
    omega
  rw [if_neg hb, if_pos (Or.inr (hex_digit_of_decimal _ h))]

theorem drop_speed (t : List Nat) : (bytes "speed " ++ t).drop 6 = t := by
  simp [bytes]

/-- What `process_message` does with a line `speed <arg>`, before the fields
are read off. -/
theorem process_message_speed (s : Firmware) (arg rest : List Nat)
    (h : holding s (bytes "speed " ++ arg) rest) :
    process_message s
      = store 0 0
          { (if 10 < parse_number arg ∧ parse_number arg < 2000 then
              uart_puts (bytes " ms\r\n")
                (uart_puts (arg ++ 0 :: rest)
                  (uart_puts (bytes "speed set to ")
                    { s with handed := s.handed ++ [s.rx_buf],
                             interval := (parse_number arg).toNat }))
            else uart_puts (bytes "invalid speed\r\n")
              { s with handed := s.handed ++ [s.rx_buf] }) with rx_pos := 0 } := by
  have hb : s.rx_buf = bytes "speed " ++ (arg ++ 0 :: rest) := by
    rw [h.1, List.append_assoc]
  have hd : s.rx_buf.drop 6 = arg ++ 0 :: rest := by rw [hb, drop_speed]
  have hp : parse_number (arg ++ 0 :: rest) = parse_number arg :=
    parse_number_loop_nul arg rest 0
  have key : dispatch { s with handed := s.handed ++ [s.rx_buf] }
      = process_speed { s with handed := s.handed ++ [s.rx_buf] } :=
    dispatch_speed { s with handed := s.handed ++ [s.rx_buf] } (arg ++ 0 :: rest) hb
  unfold process_message
  rw [key]
  unfold process_speed
  simp only [hd, hp]

/-! ## The claims on the console firmware -/

/-- C17 (`set` with a decimal argument), evaluated on the code: the line
`set 10` writes `0x10` = 16 to `PORTD`, not 10, and `set 255` writes `0x55`;
every argument that starts with a decimal digit is read by `parse_hex`, because
a decimal digit is a hex digit and that test comes first, so the decimal
branch is never taken.  A single digit gives the same value either way;
`b`-prefixed and `0x`-prefixed arguments are written as their binary and hex
values. -/
theorem set_decimal_is_read_as_hex :
    (run_uart (typed 0 "set 10") (main_prelude boot)).portd = 0x10
    ∧ (parse_number (bytes "10") % 256).toNat = 10
    ∧ (run_uart (typed 0 "set 255") (main_prelude boot)).portd = 0x55
    ∧ (run_uart (typed 0 "set 7") (main_prelude boot)).portd = 7
    ∧ (run_uart (typed 0 "set b101") (main_prelude boot)).portd = 5
    ∧ (run_uart (typed 0 "set 0x3F") (main_prelude boot)).portd = 0x3F
    ∧ (∀ c : Nat, '0'.toNat ≤ c ∧ c ≤ '9'.toNat → 0 ≤ hex_digit c)
    ∧ (∀ s : Firmware,
        '0'.toNat ≤ (s.rx_buf.drop 4).headD 0 ∧ (s.rx_buf.drop 4).headD 0 ≤ '9'.toNat →
        process_set s = apply_set (parse_hex (s.rx_buf.drop 4) % 256) s) := by
  refine ⟨by decide, by decide, by decide, by decide, by decide, by decide,
    hex_digit_of_decimal, process_set_decimal⟩

/-- Counterexample to C18 as stated: the argument of `speed 4294967396` has
the decimal value 4294967396, which is not between 10 and 2000, yet the
interval is changed, from 120 to 100. -/
theorem speed_overflow_is_accepted :
    decimalValue (bytes "4294967396") = 4294967396
    ∧ ¬ (10 < decimalValue (bytes "4294967396") ∧ decimalValue (bytes "4294967396") < 2000)
    ∧ (main_prelude boot).interval = 120
    ∧ (run_uart (typed 1 "speed 4294967396") (main_prelude boot)).interval = 100 := by
  decide

/-- C18 as amended.  For a line `speed <arg>` let `v` be what `parse_number`
returns for the argument: the decimal value of its leading digits reduced to
a 32-bit signed `long`, which is that decimal value itself when it is below
`2 ^ 31`.  The interval becomes `v` if and only if `10 < v < 2000`, and the
confirmation is sent; otherwise the interval is unchanged and `invalid speed`
is sent.  In both cases pattern, direction and run flag are unchanged and the
receive buffer is reset: `rx_pos = 0` and `rx_buf[0] = 0`. -/
theorem speed_command (s : Firmware) (arg rest : List Nat)
    (h : holding s (bytes "speed " ++ arg) rest) :
    parse_number arg = wrap32 (decimalValue arg)
    ∧ (decimalValue arg < 2147483648 → parse_number arg = decimalValue arg)
    ∧ ((10 < parse_number arg ∧ parse_number arg < 2000) →
        (process_message s).interval = (parse_number arg).toNat
        ∧ (process_message s).tx
            = s.tx ++ bytes "speed set to " ++ arg ++ bytes " ms\r\n")
    ∧ (¬ (10 < parse_number arg ∧ parse_number arg < 2000) →
        (process_message s).interval = s.interval
        ∧ (process_message s).tx = s.tx ++ bytes "invalid speed\r\n")
    ∧ (process_message s).pattern = s.pattern
    ∧ (process_message s).direction = s.direction
    ∧ (process_message s).run_chaser = s.run_chaser
    ∧ (process_message s).rx_pos = 0
    ∧ (process_message s).rx_buf = s.rx_buf.set 0 0 := by
  have hm := process_message_speed s arg rest h
  have hnul : ∀ c ∈ arg, c ≠ 0 := fun c hc => h.2 c (List.mem_append_right _ hc)
  have hw := parse_number_wrap arg
  refine ⟨hw, ?_, ?_, ?_, ?_, ?_, ?_, ?_, ?_⟩
  · intro hlt
    rw [hw, wrap32_small _ hlt]
  · intro hv
    rw [hm, if_pos hv]
    refine ⟨rfl, ?_⟩
    simp [store, uart_puts, takeWhile_nul arg rest hnul, bytes]
  · intro hv
    rw [hm, if_neg hv]
    refine ⟨rfl, ?_⟩
    simp [store, uart_puts, bytes]
  · rw [hm]; split <;> rfl
  · rw [hm]; split <;> rfl
  · rw [hm]; split <;> rfl
  · rw [hm]; split <;> rfl
  · rw [hm]; split <;> rfl

/-- Witness of C18 as amended: the buffer holds `speed 250`; the interval
becomes 250. -/
theorem speed_command_witness :
    holding { boot with rx_buf := bytes "speed 250" ++ List.replicate 23 0, rx_pos := 9 }
        (bytes "speed " ++ bytes "250") (List.replicate 22 0)
    ∧ (process_message
        { boot with rx_buf := bytes "speed 250" ++ List.replicate 23 0, rx_pos := 9 }).interval
        = 250 := by
  have hh : holding { boot with rx_buf := bytes "speed 250" ++ List.replicate 23 0, rx_pos := 9 }
      (bytes "speed " ++ bytes "250") (List.replicate 22 0) := by
    refine ⟨by decide, by decide⟩
  refine ⟨hh, ?_⟩
  have h := (speed_command _ (bytes "250") (List.replicate 22 0) hh).2.2.1 (by decide)
  rw [h.1]
  decide

/-- C19 (one-hot chaser), evaluated on the code: seven chaser updates bring the
pattern to `0x80` and the direction to right; the command `left` then sets the
direction to left, and the next update shifts `0x80` left to 0.  From then on
the pattern is 0 after any further turns of the loop, whatever is received. -/
theorem chaser_goes_dark (inputs : List (Nat × Option Nat)) :
    (run_main (darkRun.take 7) (main_prelude boot)).pattern = 0x80
    ∧ (run_main (darkRun.take 7) (main_prelude boot)).direction = 1
    ∧ (run_main (darkRun.take 12) (main_prelude boot)).pattern = 0x80
    ∧ (run_main (darkRun.take 12) (main_prelude boot)).direction = 0
    ∧ (run_main darkRun (main_prelude boot)).pattern = 0
    ∧ oneHot (run_main darkRun (main_prelude boot)).pattern = false
    ∧ (run_main inputs (run_main darkRun (main_prelude boot))).pattern = 0 := by
  obtain ⟨h1, h2, h3, h4, h5, _⟩ := darkRun_pattern
  refine ⟨h1, h2, h3, h4, h5, ?_, run_main_dark inputs _ h5⟩
  rw [h5]
  decide

/-- C20 (receive-buffer safety).  After any sequence of calls of `uart_task`
from the initial state, whatever is received and whenever, and after any turns
of the loop of `main`: `rx_pos` is at most 31, the buffer has its 32 cells,
every store into `rx_buf` was at an index of at most 31, and every buffer
handed to `process_message` held a NUL at an index of at most 31.  The
records are not empty: typing `help` makes six stores and one call. -/
theorem receive_buffer_safety (inputs : List (Nat × Option Nat)) :
    ((run_uart inputs boot).rx_pos ≤ RX_BUF_SIZE - 1
      ∧ (run_uart inputs boot).rx_buf.length = RX_BUF_SIZE
      ∧ (∀ i ∈ (run_uart inputs boot).stores, i ≤ RX_BUF_SIZE - 1)
      ∧ (∀ b ∈ (run_uart inputs boot).handed,
          b.length = RX_BUF_SIZE ∧ ∃ i, i ≤ RX_BUF_SIZE - 1 ∧ b[i]? = some 0))
    ∧ bufferSafe (run_main inputs (main_prelude boot))
    ∧ (run_uart (typed 0 "help") boot).stores = [0, 1, 2, 3, 4, 0]
    ∧ (run_uart (typed 0 "help") boot).handed = [bytes "help" ++ List.replicate 28 0] := by
  refine ⟨run_uart_safe inputs boot bufferSafe_boot, ?_, by decide, by decide⟩
  apply run_main_safe
  obtain ⟨h1, h2, h3, h4⟩ := bufferSafe_boot
  exact ⟨h1, h2, h3, h4⟩

end TTLKnight
